import Mathlib

/-!
# Memory-hierarchy micro-benchmark: sizer, access patterns, scalar kernels and driver

A shallow embedding of `Project 1/code/pro1.cpp`, and of the strided loop of
`Project 2/code/saxpy.cpp`.

* `size_t` values are natural numbers below `2 ^ 64`; every `size_t` product and sum of the
  source that can exceed the range is reduced modulo `SIZE_T_RANGE` here.
* An `int` operand that meets a `size_t` operand is converted with `to_size_t`.
* A call either returns, faults (integer division by zero, an access outside a vector, an
  uncaught exception) or exhausts the loop budget of the model (`Outcome`).  Only the loops
  `for (i = 0; i * stride < N; i++)` and `for (int i = 0; i < n; i += stride)` carry a
  budget; the counting loops `for (i = 0; i < N; i++)` and `for (i = 1; i + 1 < N; i++)`
  run over the list of their counter values.
* An `int` sum that leaves the range of `int` wraps (`int_add`).
* Memory is unbounded: an allocation never fails, and the arrays behind the raw pointers
  `x`, `y`, `z` are functions from the element index to the element value.  Every element
  access a kernel makes is appended to a trace, so that bounds are statements about traces.
  The vectors behind the views of the driver are described by `vector_length` and
  `vector_position`; the fill loop of the driver checks every store against them, so that a
  run whose views overrun the vectors ends in the fault `OutOfRange`.
* The element type `T` is a type `α` with a product, a sum, a zero and numerals; `sizeof(T)`
  is the parameter `sizeofT`.
* Values of type `double` are rationals; the clock readings are inputs of the model.
-/

namespace Pro1

/-! ## Machine integers and call outcomes -/

/-- Number of values of `size_t` on the 64-bit target. -/
def SIZE_T_RANGE : Nat := 2 ^ 64

/-- Conversion of an `int` operand to `size_t`: the value modulo `2 ^ 64`. -/
def to_size_t (z : Int) : Nat := (z % (2 ^ 64 : Int)).toNat

/-- Ways a call can end other than by returning.  `ConfigurationError` is the error the
specification names; no statement of the source raises it. -/
inductive Failure where
  | ConfigurationError
  | DivideByZero
  | OutOfRange
  | UncaughtException
  deriving DecidableEq, Repr

/-- Result of running a piece of the program. -/
inductive Outcome (σ : Type) where
  | returned (s : σ)
  | fault (f : Failure)
  | outOfFuel
  deriving DecidableEq, Repr

/-- Sequencing of two program pieces. -/
def Outcome.bind {σ τ : Type} (r : Outcome σ) (k : σ → Outcome τ) : Outcome τ :=
  match r with
  | Outcome.returned s => k s
  | Outcome.fault f => Outcome.fault f
  | Outcome.outOfFuel => Outcome.outOfFuel

/-! ## Access patterns and the gather index table -/

/-- The `AccessPattern` enumeration. -/
inductive AccessPattern where
  | UnitStride
  | Strided
  | Gather
  deriving DecidableEq, Repr

/-- The function `make_gather_indices(N, stride)`: `idx[i] = (i * stride) % N` for
`i = 0 .. N-1`, the product taken in `size_t`. -/
def make_gather_indices (N : Nat) (stride : Int) : List Nat :=
  (List.range N).map fun i => (i * to_size_t stride % SIZE_T_RANGE) % N

/-! ## Working-set sizer -/

def L1_SMALL : Nat := 32 * 1024
def L1_LARGE : Nat := 192 * 1024
def L2_SIZE : Nat := 512 * 1024
def L3_SIZE : Nat := 8 * 1024 * 1024
def DRAM_SIZE : Nat := 2 ^ 30

/-- The function `choose_N<T>(memory_level, num_arrays)` with `sizeofT = sizeof(T)`.
The divisor `sizeof(T) * num_arrays` is a `size_t` product; dividing by zero is a fault. -/
def choose_N (sizeofT : Nat) (memory_level : String) (num_arrays : Int) : Outcome Nat :=
  let cache_bytes : Nat :=
    if memory_level = "l1small" then L1_SMALL
    else if memory_level = "l1large" then L1_LARGE
    else if memory_level = "l2" then L2_SIZE
    else if memory_level = "l3" then L3_SIZE
    else if memory_level = "dram" then DRAM_SIZE
    else (8 * sizeofT % SIZE_T_RANGE) * to_size_t num_arrays % SIZE_T_RANGE
  let divisor : Nat := sizeofT * to_size_t num_arrays % SIZE_T_RANGE
  if divisor = 0 then Outcome.fault Failure.DivideByZero
  else Outcome.returned (cache_bytes / divisor)

/-- The function `get_sweep_N()`. -/
def get_sweep_N : List Nat :=
  [1 * 1024, 4 * 1024, 16 * 1024, 32 * 1024, 192 * 1024, 512 * 1024,
   2 * 1024 * 1024, 8 * 1024 * 1024, 32 * 1024 * 1024]

/-- The list `N_sweep` that `run_demo<T>` builds from the global `g_memory_level`. -/
def N_sweep (sizeofT : Nat) (memory_level : String) : Outcome (List Nat) :=
  if memory_level = "sweep" then Outcome.returned get_sweep_N
  else (choose_N sizeofT memory_level 2).bind fun N => Outcome.returned [N]

/-! ## Element accesses and loops -/

/-- The three arrays of the driver. -/
inductive ArrayName where
  | x
  | y
  | z
  deriving DecidableEq, Repr

/-- One element access: a read or a write of `array[idx]`. -/
inductive Access where
  | read (array : ArrayName) (idx : Nat)
  | write (array : ArrayName) (idx : Nat)
  deriving DecidableEq, Repr

/-- The element index of an access. -/
def Access.idx : Access → Nat
  | Access.read _ i => i
  | Access.write _ i => i

/-- A value under computation together with the element accesses made so far. -/
structure Traced (σ : Type) where
  val : σ
  trace : List Access

/-- Running a loop body once for each counter value of `is`, in order. -/
def for_each {σ : Type} (body : Nat → σ → Outcome σ) : List Nat → σ → Outcome σ
  | [], st => Outcome.returned st
  | i :: is, st => (body i st).bind (for_each body is)

/-- The loop `for (size_t i = 0; i * stride < N; i++) body(i * stride)`, resumed at counter
`i` with `fuel` iterations left in the budget.  Counter and product are `size_t`. -/
def for_strided {σ : Type} (N stride : Nat) (body : Nat → σ → σ) : Nat → Nat → σ → Outcome σ
  | 0, _, _ => Outcome.outOfFuel
  | fuel + 1, i, st =>
    if i * stride % SIZE_T_RANGE < N then
      for_strided N stride body fuel ((i + 1) % SIZE_T_RANGE)
        (body (i * stride % SIZE_T_RANGE) st)
    else Outcome.returned st

/-- The read `(*gather_idx)[i]`; past the end of the vector it is a fault. -/
def table_at (gather_idx : List Nat) (i : Nat) : Outcome Nat :=
  match gather_idx[i]? with
  | some idx => Outcome.returned idx
  | none => Outcome.fault Failure.OutOfRange

/-- The element accesses of the stencil statement at `idx`: reads of `x[idx - 1]`, `x[idx]`,
`x[idx + 1]` and the write of `y[idx]`. -/
def stencil_accesses (idx : Nat) : List Access :=
  [Access.read ArrayName.x ((idx + SIZE_T_RANGE - 1) % SIZE_T_RANGE),
   Access.read ArrayName.x idx,
   Access.read ArrayName.x ((idx + 1) % SIZE_T_RANGE),
   Access.write ArrayName.y idx]

/-- The element accesses of the guarded stencil statement at `idx`: those of the statement
when the guard `idx > 0 && idx + 1 < N` holds, none otherwise. -/
def stencil_guarded_accesses (N idx : Nat) : List Access :=
  if 0 < idx ∧ (idx + 1) % SIZE_T_RANGE < N then stencil_accesses idx else []

/-! ## Scalar kernels -/

section Kernels

variable {α : Type} [Mul α] [Add α]

/-- The statement `y[idx] = a * x[idx] + y[idx]`. -/
def saxpy_at (x : Nat → α) (a : α) (idx : Nat) (st : Traced (Nat → α)) : Traced (Nat → α) :=
  { val := fun j => if j = idx then a * x idx + st.val idx else st.val j
    trace := st.trace ++
      [Access.read ArrayName.x idx, Access.read ArrayName.y idx, Access.write ArrayName.y idx] }

/-- The statement `sum += x[idx] * y[idx]`. -/
def dot_at (x y : Nat → α) (idx : Nat) (st : Traced α) : Traced α :=
  { val := st.val + x idx * y idx
    trace := st.trace ++ [Access.read ArrayName.x idx, Access.read ArrayName.y idx] }

/-- The statement `z[idx] = x[idx] * y[idx]`. -/
def mul_at (x y : Nat → α) (idx : Nat) (st : Traced (Nat → α)) : Traced (Nat → α) :=
  { val := fun j => if j = idx then x idx * y idx else st.val j
    trace := st.trace ++
      [Access.read ArrayName.x idx, Access.read ArrayName.y idx, Access.write ArrayName.z idx] }

/-- The statement `y[idx] = a * x[idx - 1] + b * x[idx] + c * x[idx + 1]`; the index
expressions `idx - 1` and `idx + 1` are `size_t`. -/
def stencil_at (x : Nat → α) (a b c : α) (idx : Nat) (st : Traced (Nat → α)) :
    Traced (Nat → α) :=
  { val := fun j =>
      if j = idx then
        a * x ((idx + SIZE_T_RANGE - 1) % SIZE_T_RANGE) + b * x idx
          + c * x ((idx + 1) % SIZE_T_RANGE)
      else st.val j
    trace := st.trace ++ stencil_accesses idx }

/-- The guarded statement `if (idx > 0 && idx + 1 < N) y[idx] = ...` of the strided and
gather branches of the stencil. -/
def stencil_guarded (x : Nat → α) (a b c : α) (N idx : Nat) (st : Traced (Nat → α)) :
    Traced (Nat → α) :=
  if 0 < idx ∧ (idx + 1) % SIZE_T_RANGE < N then stencil_at x a b c idx st else st

/-- The kernel `saxpy_scalar(y, x, a, N, pattern, stride, gather_idx)`; `gather_idx` is
`none` for a null pointer.  Returns the final `y` and the accesses made. -/
def saxpy_scalar (fuel : Nat) (y x : Nat → α) (a : α) (N : Nat) (pattern : AccessPattern)
    (stride : Int) (gather_idx : Option (List Nat)) : Outcome (Traced (Nat → α)) :=
  if pattern = AccessPattern.UnitStride then
    for_each (fun i st => Outcome.returned (saxpy_at x a i st)) (List.range N) ⟨y, []⟩
  else if pattern = AccessPattern.Strided then
    for_strided N (to_size_t stride) (saxpy_at x a) fuel 0 ⟨y, []⟩
  else
    match pattern, gather_idx with
    | AccessPattern.Gather, some table =>
      for_each (fun i st => (table_at table i).bind fun idx =>
        Outcome.returned (saxpy_at x a idx st)) (List.range N) ⟨y, []⟩
    | _, _ => Outcome.returned ⟨y, []⟩

/-- The kernel `dot_scalar(x, y, N, pattern, stride, gather_idx)`.  Returns the value of
`sum` handed to `do_not_optimize` and the accesses made. -/
def dot_scalar [Zero α] (fuel : Nat) (x y : Nat → α) (N : Nat) (pattern : AccessPattern)
    (stride : Int) (gather_idx : Option (List Nat)) : Outcome (Traced α) :=
  if pattern = AccessPattern.UnitStride then
    for_each (fun i st => Outcome.returned (dot_at x y i st)) (List.range N) ⟨0, []⟩
  else if pattern = AccessPattern.Strided then
    for_strided N (to_size_t stride) (dot_at x y) fuel 0 ⟨0, []⟩
  else
    match pattern, gather_idx with
    | AccessPattern.Gather, some table =>
      for_each (fun i st => (table_at table i).bind fun idx =>
        Outcome.returned (dot_at x y idx st)) (List.range N) ⟨0, []⟩
    | _, _ => Outcome.returned ⟨0, []⟩

/-- The kernel `mul_scalar(z, x, y, N, pattern, stride, gather_idx)`.  Returns the final `z`
and the accesses made. -/
def mul_scalar (fuel : Nat) (z x y : Nat → α) (N : Nat) (pattern : AccessPattern)
    (stride : Int) (gather_idx : Option (List Nat)) : Outcome (Traced (Nat → α)) :=
  if pattern = AccessPattern.UnitStride then
    for_each (fun i st => Outcome.returned (mul_at x y i st)) (List.range N) ⟨z, []⟩
  else if pattern = AccessPattern.Strided then
    for_strided N (to_size_t stride) (mul_at x y) fuel 0 ⟨z, []⟩
  else
    match pattern, gather_idx with
    | AccessPattern.Gather, some table =>
      for_each (fun i st => (table_at table i).bind fun idx =>
        Outcome.returned (mul_at x y idx st)) (List.range N) ⟨z, []⟩
    | _, _ => Outcome.returned ⟨z, []⟩

/-- The kernel `stencil_scalar(y, x, a, b, c, N, pattern, stride, gather_idx)`.  Every loop
is `for (size_t i = 1; i + 1 < N; i++)`, whose counter runs over `1 .. N-2`.  Returns the
final `y` and the accesses made. -/
def stencil_scalar (y x : Nat → α) (a b c : α) (N : Nat) (pattern : AccessPattern)
    (stride : Int) (gather_idx : Option (List Nat)) : Outcome (Traced (Nat → α)) :=
  if pattern = AccessPattern.UnitStride then
    for_each (fun i st => Outcome.returned (stencil_at x a b c i st))
      (List.range' 1 (N - 2)) ⟨y, []⟩
  else if pattern = AccessPattern.Strided then
    for_each (fun i st => Outcome.returned
      (stencil_guarded x a b c N (i * to_size_t stride % SIZE_T_RANGE) st))
      (List.range' 1 (N - 2)) ⟨y, []⟩
  else
    match pattern, gather_idx with
    | AccessPattern.Gather, some table =>
      for_each (fun i st => (table_at table i).bind fun idx =>
        Outcome.returned (stencil_guarded x a b c N idx st)) (List.range' 1 (N - 2)) ⟨y, []⟩
    | _, _ => Outcome.returned ⟨y, []⟩

end Kernels

/-! ## The strided loop of the cache-miss test (`Project 2/code/saxpy.cpp`) -/

/-- The sum of two `int` values as the 32-bit two's-complement target computes it: the
mathematical sum wrapped into `[-2^31, 2^31)`. -/
def int_add (a b : Int) : Int :=
  (a + b + 2147483648) % 4294967296 - 2147483648

/-- The loop `for (int i = 0; i < n; i += stride) body(i)` of `test_lambda`, resumed at
counter `i` with `fuel` iterations left in the budget.  The counter is an `int` and indexes
the arrays and the index vector; a counter below zero denotes an element before their
start, the fault `OutOfRange`. -/
def for_int_stride {σ : Type} (n stride : Int) (body : Nat → σ → Outcome σ) :
    Nat → Int → σ → Outcome σ
  | 0, _, _ => Outcome.outOfFuel
  | fuel + 1, i, st =>
    if i < n then
      if i < 0 then Outcome.fault Failure.OutOfRange
      else (body i.toNat st).bind fun st1 =>
        for_int_stride n stride body fuel (int_add i stride) st1
    else Outcome.returned st

/-- The lambda `test_lambda` of `test_cache_miss_impact`, on the arrays `x`, `y` of `n`
elements.  With `random_access` it runs `idx = indices[i]; y[idx] = a * x[idx] + y[idx]`,
otherwise `y[i] = a * x[i] + y[i]`, in both cases for `i = 0, stride, 2 * stride, ...` while
`i < n`.  `indices` is the index vector as the shuffle left it.  Returns the final `y` and
the accesses made. -/
def test_lambda {α : Type} [Mul α] [Add α] (fuel : Nat) (n stride : Int)
    (random_access : Bool) (indices : List Int) (a : α) (x y : Nat → α) :
    Outcome (Traced (Nat → α)) :=
  if random_access then
    for_int_stride n stride
      (fun i st =>
        match indices[i]? with
        | some idx =>
          if 0 ≤ idx ∧ idx < n then Outcome.returned (saxpy_at x a idx.toNat st)
          else Outcome.fault Failure.OutOfRange
        | none => Outcome.fault Failure.OutOfRange)
      fuel 0 ⟨y, []⟩
  else
    for_int_stride n stride (fun i st => Outcome.returned (saxpy_at x a i st)) fuel 0 ⟨y, []⟩

/-! ## Timer -/

/-- The statement `if (elapsed == 0) elapsed = 0.1;` of `time_function`.  Values of type
`double` are rationals here (rounding is not modelled). -/
def clamp_elapsed (elapsed : ℚ) : ℚ :=
  if elapsed = 0 then 1 / 10 else elapsed

/-- The expression `(flops_per_elem * N) / elapsed / 1e9` of `time_function`, evaluated
after the clamp of `elapsed`. -/
def gflops (flops_per_elem : ℚ) (N : Nat) (elapsed : ℚ) : ℚ :=
  (flops_per_elem * (N : ℚ)) / clamp_elapsed elapsed / 1000000000

/-! ## Driver -/

/-- The global configuration variables `g_aligned`, `g_tail`, `g_access_pattern`, `g_stride`,
`g_type`, `g_memory_level`. -/
structure Globals where
  aligned : Bool
  tail : Bool
  access_pattern : AccessPattern
  stride : Int
  type : String
  memory_level : String
  deriving DecidableEq, Repr

/-- The initial values of the globals. -/
def Globals.initial : Globals :=
  { aligned := true, tail := false, access_pattern := AccessPattern.UnitStride, stride := 1,
    type := "", memory_level := "" }

/-- One data row written to the CSV stream by `time_function`. -/
structure Row where
  kernel : String
  run : Nat
  elapsed : ℚ
  gflops : ℚ
  N : Nat
  type : String
  aligned : Bool
  tail : Bool
  access : String
  stride : Int
  memory_level : String
  deriving DecidableEq, Repr

/-- The access label written by `time_function`. -/
def access_label (p : AccessPattern) : String :=
  if p = AccessPattern.UnitStride then "unit-stride"
  else if p = AccessPattern.Strided then "strided" else "gather"

/-- The row written after run number `run` of `kernel`, whose measured duration is
`measured`: the `g_csv << ...` statement of `time_function`. -/
def csv_row (g : Globals) (kernel : String) (run : Nat) (measured : ℚ) (flops_per_elem : ℚ)
    (N : Nat) : Row :=
  { kernel := kernel, run := run, elapsed := clamp_elapsed measured,
    gflops := gflops flops_per_elem N measured, N := N, type := g.type,
    aligned := g.aligned, tail := g.tail, access := access_label g.access_pattern,
    stride := g.stride, memory_level := g.memory_level }

/-- The function `time_function(f, kernel, flops_per_elem, N, runs)`: for each run, call
`f`, then append one row.  `clock run` is the duration the clock measures around call
number `run`; `f` acts on the memory `μ` captured by the lambda. -/
def time_function {μ : Type} (g : Globals) (clock : Nat → ℚ) (f : μ → Outcome μ)
    (kernel : String) (flops_per_elem : ℚ) (N : Nat) (runs : Nat) (st : μ × List Row) :
    Outcome (μ × List Row) :=
  for_each (fun run st => (f st.1).bind fun m => Outcome.returned
    (m, st.2 ++ [csv_row g kernel run (clock run) flops_per_elem N]))
    (List.range runs) st

/-- The arrays behind the pointers `xp`, `yp`, `zp` of `run_demo`. -/
structure Arrays (α : Type) where
  x : Nat → α
  y : Nat → α
  z : Nat → α

/-! ## Alignment -/

/-- The function `maybe_misalign(v)`: the pointer it returns, as an element offset from
`v.data()`: 0 when `g_aligned` is set, 1 otherwise. -/
def maybe_misalign (aligned : Bool) : Nat :=
  if aligned then 0 else 1

/-- The number of elements of each of the vectors `std::vector<T> x(N), y(N), z(N)` of
`run_demo`. -/
def vector_length (N : Nat) : Nat := N

/-- The element of the vector `x` that the access `xp[i]` of `run_demo` denotes, where
`xp = maybe_misalign(x)`; likewise for `yp`, `zp`. -/
def vector_position (g : Globals) (i : Nat) : Nat :=
  maybe_misalign g.aligned + i

/-- The elements of each vector written by the fill loop
`for (size_t i = 0; i < N; i++) { xp[i] = ...; yp[i] = ...; zp[i] = ...; }` of `run_demo`. -/
def fill_positions (g : Globals) (N : Nat) : List Nat :=
  (List.range N).map (vector_position g)

section Driver

variable {α : Type} [Mul α] [Add α] [Zero α] [NatCast α]

/-- One iteration of the fill loop of `run_demo`,
`xp[i] = dist(gen); yp[i] = dist(gen); zp[i] = dist(gen);`, on vectors of `len` elements.
The three stores go to element `vector_position g i` of the vectors `x`, `y`, `z`; a store
past the end of a vector is the fault `OutOfRange`.  `fill k` is the `k`-th value drawn from
the generator, converted to `T`; the arrays are indexed through the views `xp`, `yp`, `zp`. -/
def fill_step (g : Globals) (fill : Nat → α) (len : Nat) (i : Nat) (m : Arrays α) :
    Outcome (Arrays α) :=
  if vector_position g i < len then
    Outcome.returned
      { x := fun j => if j = i then fill (3 * i) else m.x j
        y := fun j => if j = i then fill (3 * i + 1) else m.y j
        z := fun j => if j = i then fill (3 * i + 2) else m.z j }
  else Outcome.fault Failure.OutOfRange

/-- The body of the loop `for (size_t N : N_sweep)` of `run_demo<T>`: tail adjustment, the
three zero-initialised vectors of `N` elements with their views, the fill loop, the gather
table, then the four timed kernels, ten runs each.  `clock kernel run` is the measured
duration of run `run` of `kernel`. -/
def run_size (g : Globals) (clock : String → Nat → ℚ) (fill : Nat → α) (fuel : Nat)
    (N0 : Nat) (rows : List Row) : Outcome (List Row) :=
  let N : Nat := if g.tail then (N0 + 3) % SIZE_T_RANGE else N0
  let gather_idx : List Nat :=
    if g.access_pattern = AccessPattern.Gather then make_gather_indices N g.stride else []
  let gather_ptr : Option (List Nat) :=
    if g.access_pattern = AccessPattern.Gather then some gather_idx else none
  (for_each (fill_step g fill (vector_length N)) (List.range N)
    { x := fun _ => 0, y := fun _ => 0, z := fun _ => 0 }).bind fun mem =>
  (time_function g (clock "SAXPY")
    (fun m => (saxpy_scalar fuel m.y m.x ((3 : Nat) : α) N g.access_pattern g.stride
      gather_ptr).bind fun r => Outcome.returned { m with y := r.val })
    "SAXPY" 2 N 10 (mem, rows)).bind fun s1 =>
  (time_function g (clock "DOT")
    (fun m => (dot_scalar fuel m.x m.y N g.access_pattern g.stride gather_ptr).bind
      fun _ => Outcome.returned m)
    "DOT" 2 N 10 s1).bind fun s2 =>
  (time_function g (clock "MUL")
    (fun m => (mul_scalar fuel m.z m.x m.y N g.access_pattern g.stride gather_ptr).bind
      fun r => Outcome.returned { m with z := r.val })
    "MUL" 1 N 10 s2).bind fun s3 =>
  (time_function g (clock "STENCIL")
    (fun m => (stencil_scalar m.y m.x ((1 : Nat) : α) ((2 : Nat) : α) ((3 : Nat) : α) N
      g.access_pattern g.stride gather_ptr).bind fun r => Outcome.returned { m with y := r.val })
    "STENCIL" 5 N 10 s3).bind fun s4 =>
  Outcome.returned s4.2

/-- The loop over `N_sweep` of `run_demo<T>`. -/
def run_sizes (g : Globals) (clock : String → Nat → ℚ) (fill : Nat → α) (fuel : Nat) :
    List Nat → List Row → Outcome (List Row)
  | [], rows => Outcome.returned rows
  | N0 :: rest, rows =>
    (run_size g clock fill fuel N0 rows).bind (run_sizes g clock fill fuel rest)

/-- The function `run_demo<T>`; `rows` are the CSV rows written so far. -/
def run_demo (sizeofT : Nat) (g : Globals) (clock : String → Nat → ℚ) (fill : Nat → α)
    (fuel : Nat) (rows : List Row) : Outcome (List Row) :=
  (N_sweep sizeofT g.memory_level).bind fun sizes => run_sizes g clock fill fuel sizes rows

end Driver

/-! ## Command line -/

/-- The library function `std::stoi` in base 10: optional leading white space (blank, tab,
line feed, carriage return, vertical tab, form feed), an optional sign, then at least one
decimal digit; `none` stands for the exception it throws when there is no digit or the
value does not fit an `int`. -/
def stoi (s : String) : Option Int :=
  let cs := s.data.dropWhile fun c =>
    c = ' ' ∨ c = '\t' ∨ c = '\n' ∨ c = '\r' ∨ c = Char.ofNat 11 ∨ c = Char.ofNat 12
  let signed : Bool × List Char :=
    match cs with
    | '-' :: rest => (true, rest)
    | '+' :: rest => (false, rest)
    | _ => (false, cs)
  let digits := signed.2.takeWhile fun c => '0' ≤ c ∧ c ≤ '9'
  if digits = [] then none
  else
    let magnitude : Int := digits.foldl (fun v c => v * 10 + ((c.toNat : Int) - 48)) 0
    let value : Int := if signed.1 then -magnitude else magnitude
    if -2147483648 ≤ value ∧ value ≤ 2147483647 then some value else none

/-- One step of the argument loop of `main`, for an argument other than the help flags.
An exception thrown by `std::stoi` is not caught: the fault `UncaughtException`. -/
def parse_arg (g : Globals) (arg : String) : Outcome Globals :=
  if arg = "f32" ∨ arg = "f64" ∨ arg = "i32" then Outcome.returned { g with type := arg }
  else if arg = "--aligned" then Outcome.returned { g with aligned := true }
  else if arg = "--misaligned" then Outcome.returned { g with aligned := false }
  else if arg = "--tail" then Outcome.returned { g with tail := true }
  else if arg = "--no-tail" then Outcome.returned { g with tail := false }
  else if arg = "--unit-stride" then
    Outcome.returned { g with access_pattern := AccessPattern.UnitStride, stride := 1 }
  else if arg.data.take 9 = "--stride=".data then
    match stoi (String.mk (arg.data.drop 9)) with
    | some v => Outcome.returned { g with access_pattern := AccessPattern.Strided, stride := v }
    | none => Outcome.fault Failure.UncaughtException
  else if arg.data.take 9 = "--gather=".data then
    match stoi (String.mk (arg.data.drop 9)) with
    | some v => Outcome.returned { g with access_pattern := AccessPattern.Gather, stride := v }
    | none => Outcome.fault Failure.UncaughtException
  else if arg = "l1small" ∨ arg = "l1large" ∨ arg = "l2" ∨ arg = "l3" ∨ arg = "dram" ∨
      arg = "sweep" then
    Outcome.returned { g with memory_level := arg }
  else Outcome.returned g

/-- The argument loop of `main` over `argv[1 ..]`; `none` is the early `return 0` of the
help flags. -/
def parse_args : Globals → List String → Outcome (Option Globals)
  | g, [] => Outcome.returned (some g)
  | g, arg :: rest =>
    if arg = "-help" ∨ arg = "--help" then Outcome.returned none
    else (parse_arg g arg).bind fun g1 => parse_args g1 rest

/-- The function `main`, from `argv` to the exit status and the data rows of the CSV file.
The command-line string, the file name and the header line are not part of the result. -/
def main_model {α : Type} [Mul α] [Add α] [Zero α] [NatCast α] (clock : String → Nat → ℚ)
    (fill : Nat → α) (fuel : Nat) (argv : List String) : Outcome (Int × List Row) :=
  (parse_args Globals.initial argv.tail).bind fun parsed =>
    match parsed with
    | none => Outcome.returned (0, [])
    | some g =>
      if g.type = "f32" then
        (run_demo 4 g clock fill fuel []).bind fun rows => Outcome.returned (0, rows)
      else if g.type = "f64" then
        (run_demo 8 g clock fill fuel []).bind fun rows => Outcome.returned (0, rows)
      else if g.type = "i32" then
        (run_demo 4 g clock fill fuel []).bind fun rows => Outcome.returned (0, rows)
      else Outcome.returned (0, [])

/-! ## Derived notions -/

/-- The set of element indices that a trace touches. -/
def touched (tr : List Access) : Finset Nat := (tr.map Access.idx).toFinset

/-- The rows that `run_demo` writes for one working-set size when all four kernels return:
ten rows each for SAXPY, DOT, MUL and STENCIL, in the order of the four `time_function`
calls, with their operation counts per element 2, 2, 1 and 5. -/
def size_rows (g : Globals) (clock : String → Nat → ℚ) (N : Nat) : List Row :=
  (List.range 10).map (fun run => csv_row g "SAXPY" run (clock "SAXPY" run) 2 N) ++
  (List.range 10).map (fun run => csv_row g "DOT" run (clock "DOT" run) 2 N) ++
  (List.range 10).map (fun run => csv_row g "MUL" run (clock "MUL" run) 1 N) ++
  (List.range 10).map (fun run => csv_row g "STENCIL" run (clock "STENCIL" run) 5 N)

/-! ## Facts about machine integers -/

theorem to_size_t_of_nonneg_lt (z : Int) (h0 : 0 ≤ z) (h1 : z < 2 ^ 64) :
    to_size_t z = z.toNat := by
  unfold to_size_t
  rw [Int.emod_eq_of_lt h0 h1]

theorem to_size_t_zero : to_size_t 0 = 0 := by
  simp [to_size_t]

/-! ## Sizer -/

/-- The five budgeted memory levels with their byte budgets. -/
theorem choose_N_budget_cases (level : String) (budget : Nat)
    (h : (level, budget) ∈ [("l1small", 32 * 1024), ("l1large", 192 * 1024),
      ("l2", 512 * 1024), ("l3", 8 * 1024 * 1024), ("dram", 1024 * 1024 * 1024)])
    (sizeofT : Nat) (k : Int) :
    choose_N sizeofT level k =
      if sizeofT * to_size_t k % SIZE_T_RANGE = 0 then Outcome.fault Failure.DivideByZero
      else Outcome.returned (budget / (sizeofT * to_size_t k % SIZE_T_RANGE)) := by
  simp only [List.mem_cons, Prod.mk.injEq, List.mem_singleton, List.mem_nil_iff, or_false] at h
  rcases h with ⟨rfl, rfl⟩ | ⟨rfl, rfl⟩ | ⟨rfl, rfl⟩ | ⟨rfl, rfl⟩ | ⟨rfl, rfl⟩ <;>
    simp [choose_N, L1_SMALL, L1_LARGE, L2_SIZE, L3_SIZE, DRAM_SIZE]

/-- The divisor of `choose_N` cannot wrap for an element size of at most `2^33` bytes and an
`int` array count: in particular for every 4-byte and 8-byte element type. -/
theorem sizer_divisor_no_wrap (e : Nat) (k : Int) (he : e ≤ 2 ^ 33) (hk : k ≤ 2147483647) :
    (e : Int) * k < 2 ^ 64 := by
  have he1 : (e : Int) ≤ 2 ^ 33 := by exact_mod_cast he
  have he0 : (0 : Int) ≤ e := Int.natCast_nonneg e
  nlinarith

/-- C1: for each of the five budgeted levels (32 KiB, 192 KiB, 512 KiB, 8 MiB, 1 GiB), every
element size `e ≥ 1` and every array count `k ≥ 1` whose product is a `size_t` value
(`e * k < 2^64`, which holds for every element type of at most `2^33` bytes and every `int`
count), `choose_N` returns `N = budget div (e * k)`, with
`N * e * k ≤ budget < (N + 1) * e * k`: the largest element count that fits the budget. -/
theorem choose_N_largest_fit (level : String) (budget : Nat) (e : Nat) (k : Int)
    (hlevel : (level, budget) ∈ [("l1small", 32 * 1024), ("l1large", 192 * 1024),
      ("l2", 512 * 1024), ("l3", 8 * 1024 * 1024), ("dram", 1024 * 1024 * 1024)])
    (he : 1 ≤ e) (hk : 1 ≤ k) (hwrap : (e : Int) * k < 2 ^ 64) :
    choose_N e level k = Outcome.returned (budget / (e * k.toNat)) ∧
    budget / (e * k.toNat) * e * k.toNat ≤ budget ∧
    budget < (budget / (e * k.toNat) + 1) * e * k.toNat := by
  obtain ⟨n, rfl⟩ : ∃ n : Nat, k = (n : Int) := ⟨k.toNat, by omega⟩
  have hn : 1 ≤ n := by exact_mod_cast hk
  have hen : e * n < 2 ^ 64 := by exact_mod_cast hwrap
  have hnlt : n < 2 ^ 64 := lt_of_le_of_lt (Nat.le_mul_of_pos_left n he) hen
  have hconv : to_size_t (n : Int) = n := by
    rw [to_size_t_of_nonneg_lt _ (by omega) (by exact_mod_cast hnlt)]
    simp
  have hpos : 0 < e * n := Nat.mul_pos he hn
  have hmod : e * n % SIZE_T_RANGE = e * n := Nat.mod_eq_of_lt hen
  simp only [Int.toNat_ofNat]
  refine ⟨?_, ?_, ?_⟩
  · rw [choose_N_budget_cases level budget hlevel, hconv, hmod, if_neg (by omega)]
  · rw [Nat.mul_assoc]
    exact Nat.div_mul_le_self budget (e * n)
  · rw [Nat.mul_assoc]
    exact (Nat.lt_mul_div_succ budget hpos).trans_eq (Nat.mul_comm _ _)

/-- C1 witness: `float32` (`e = 4`), `l1small`, two arrays give `N = 4096`. -/
theorem choose_N_largest_fit_witness :
    choose_N 4 "l1small" 2 = Outcome.returned 4096 ∧
    (choose_N 4 "l1small" 2 = Outcome.returned (32 * 1024 / (4 * (2 : Int).toNat)) ∧
      32 * 1024 / (4 * (2 : Int).toNat) * 4 * (2 : Int).toNat ≤ 32 * 1024 ∧
      32 * 1024 < (32 * 1024 / (4 * (2 : Int).toNat) + 1) * 4 * (2 : Int).toNat) :=
  ⟨by decide,
   choose_N_largest_fit "l1small" (32 * 1024) 4 2 (by simp) (by decide) (by decide)
    (by decide)⟩

/-- C5 (as stated, refuted): with `num_arrays = 0` the call for `l1small` and a 4-byte element
ends in the division-by-zero fault, not in a `ConfigurationError`. -/
theorem choose_N_zero_count_counterexample :
    choose_N 4 "l1small" 0 = Outcome.fault Failure.DivideByZero ∧
    choose_N 4 "l1small" 0 ≠ Outcome.fault Failure.ConfigurationError := by
  refine ⟨by decide, by decide⟩

/-- C5 (amended): `choose_N` has no zero guard.  For every memory level, with `num_arrays = 0`
(any element size) or with element size 0 (any array count) the divisor
`sizeof(T) * num_arrays` is 0 and the division is performed on it: the call ends in the
division-by-zero fault, never in a `ConfigurationError`. -/
theorem choose_N_zero_divisor_faults (level : String) (sizeofT : Nat) (k : Int) :
    choose_N sizeofT level 0 = Outcome.fault Failure.DivideByZero ∧
    choose_N 0 level k = Outcome.fault Failure.DivideByZero := by
  constructor <;> simp [choose_N, to_size_t_zero]

/-- C9: for the `sweep` target the driver sizes from `get_sweep_N`, the fixed list
`[1K, 4K, 16K, 32K, 192K, 512K, 2M, 8M, 32M]`, whatever the element size; the list is
strictly ascending. -/
theorem sweep_sizes_fixed_ascending (sizeofT : Nat) :
    N_sweep sizeofT "sweep" = Outcome.returned get_sweep_N ∧
    get_sweep_N = [1 * 1024, 4 * 1024, 16 * 1024, 32 * 1024, 192 * 1024, 512 * 1024,
      2 * (1024 * 1024), 8 * (1024 * 1024), 32 * (1024 * 1024)] ∧
    List.Pairwise (fun a b => a < b) get_sweep_N := by
  refine ⟨by simp [N_sweep], by decide, by decide⟩

/-! ## Gather index table -/

theorem make_gather_indices_length (N : Nat) (s : Int) :
    (make_gather_indices N s).length = N := by
  simp [make_gather_indices]

theorem make_gather_indices_get (N : Nat) (s : Int) (i : Nat) (hi : i < N) :
    (make_gather_indices N s)[i]? = some ((i * to_size_t s % SIZE_T_RANGE) % N) := by
  simp [make_gather_indices, List.getElem?_map, List.getElem?_range hi]

/-- Without wrap the table entry is `(i * s) mod N`. -/
theorem gather_entry_no_wrap (N : Nat) (s : Int) (hs : 0 < s)
    (hwrap : ((N : Int) - 1) * s < 2 ^ 64) (i : Nat) (hi : i < N) :
    (i * to_size_t s % SIZE_T_RANGE) % N = i * s.toNat % N := by
  obtain ⟨n, rfl⟩ : ∃ n : Nat, s = (n : Int) := ⟨s.toNat, by omega⟩
  simp only [Int.toNat_ofNat]
  rcases Nat.lt_or_ge N 2 with h2 | h2
  · have : N = 1 := by omega
    subst this
    simp [Nat.mod_one]
  · have hn : 1 ≤ n := by exact_mod_cast hs
    have hw : (N - 1) * n < 2 ^ 64 := by
      have : ((N - 1 : Nat) : Int) = (N : Int) - 1 := by omega
      have h3 : (((N - 1) * n : Nat) : Int) < 2 ^ 64 := by
        push_cast
        rw [this]
        exact hwrap
      exact_mod_cast h3
    have hnlt : n < 2 ^ 64 :=
      lt_of_le_of_lt (Nat.le_mul_of_pos_left n (by omega)) hw
    have hconv : to_size_t (n : Int) = n := by
      rw [to_size_t_of_nonneg_lt _ (by omega) (by exact_mod_cast hnlt)]
      simp
    have hin : i * n < 2 ^ 64 :=
      lt_of_le_of_lt (Nat.mul_le_mul_right n (by omega)) hw
    rw [hconv, SIZE_T_RANGE, Nat.mod_eq_of_lt hin]

/-- C2: for `N ≥ 1` and a positive stride `s` with `(N-1) * s < 2^64`, the table has exactly
`N` entries, entry `i` is `(i * s) mod N`, and every entry is below `N`. -/
theorem make_gather_indices_spec (N : Nat) (s : Int) (hN : 1 ≤ N) (hs : 0 < s)
    (hwrap : ((N : Int) - 1) * s < 2 ^ 64) :
    (make_gather_indices N s).length = N ∧
    ∀ i, i < N →
      (make_gather_indices N s)[i]? = some (i * s.toNat % N) ∧ i * s.toNat % N < N := by
  refine ⟨make_gather_indices_length N s, fun i hi => ⟨?_, Nat.mod_lt _ (by omega)⟩⟩
  rw [make_gather_indices_get N s i hi, gather_entry_no_wrap N s hs hwrap i hi]

/-- C2 witness: `N = 10`, `s = 3` gives `[0,3,6,9,2,5,8,1,4,7]`. -/
theorem make_gather_indices_spec_witness :
    make_gather_indices 10 3 = [0, 3, 6, 9, 2, 5, 8, 1, 4, 7] ∧
    (make_gather_indices 10 3).length = 10 ∧
    ∀ i, i < 10 →
      (make_gather_indices 10 3)[i]? = some (i * (3 : Int).toNat % 10) ∧
        i * (3 : Int).toNat % 10 < 10 :=
  ⟨by decide, make_gather_indices_spec 10 3 (by decide) (by decide) (by decide)⟩

/-- The multiples `i * n mod N`, `i < N`, take exactly `N / gcd n N` values. -/
theorem image_mul_mod_card (N n : Nat) (hN : 1 ≤ N) :
    ((Finset.range N).image fun i => i * n % N).card = N / Nat.gcd n N := by
  set g := Nat.gcd n N with hg
  have hgpos : 0 < g := Nat.gcd_pos_of_pos_right n (by omega)
  have hgN : g ∣ N := Nat.gcd_dvd_right n N
  have hgn : g ∣ n := Nat.gcd_dvd_left n N
  set m := N / g with hm
  have hmpos : 0 < m := Nat.div_pos (Nat.le_of_dvd (by omega) hgN) hgpos
  have hmN : m ≤ N := Nat.div_le_self N g
  have hNm : N ∣ m * n := by
    obtain ⟨c, hc⟩ := hgn
    have : m * n = N * c := by
      rw [hc, ← Nat.mul_assoc, Nat.div_mul_cancel hgN]
    rw [this]
    exact Nat.dvd_mul_right N c
  have hper : ∀ i, i * n % N = (i % m) * n % N := by
    intro i
    obtain ⟨c, hc⟩ := hNm
    have h : i * n = N * (c * (i / m)) + (i % m) * n := by
      calc i * n = (m * (i / m) + i % m) * n := by rw [Nat.div_add_mod]
        _ = (m * n) * (i / m) + (i % m) * n := by ring
        _ = N * (c * (i / m)) + (i % m) * n := by rw [hc]; ring
    rw [h, Nat.mul_add_mod]
  have himg : ((Finset.range N).image fun i => i * n % N)
      = ((Finset.range m).image fun i => i * n % N) := by
    ext j
    simp only [Finset.mem_image, Finset.mem_range]
    constructor
    · rintro ⟨i, _, rfl⟩
      exact ⟨i % m, Nat.mod_lt i hmpos, (hper i).symm⟩
    · rintro ⟨i, hi, rfl⟩
      exact ⟨i, lt_of_lt_of_le hi hmN, rfl⟩
  rw [himg, Finset.card_image_of_injOn, Finset.card_range]
  intro a ha b hb hab
  simp only [Finset.coe_range, Set.mem_Iio] at ha hb
  have h1 : a * n ≡ b * n [MOD N] := hab
  have h2 := Nat.ModEq.cancel_right_div_gcd (by omega : 0 < N) h1
  rw [Nat.gcd_comm] at h2
  have h3 : a % m = b % m := h2
  rwa [Nat.mod_eq_of_lt ha, Nat.mod_eq_of_lt hb] at h3

/-- The table is the list of `(i * s) mod N` when nothing wraps. -/
theorem make_gather_indices_no_wrap (N : Nat) (s : Int) (hs : 0 < s)
    (hwrap : ((N : Int) - 1) * s < 2 ^ 64) :
    make_gather_indices N s = (List.range N).map fun i => i * s.toNat % N := by
  unfold make_gather_indices
  apply List.map_congr_left
  intro i hi
  exact gather_entry_no_wrap N s hs hwrap i (List.mem_range.mp hi)

/-- C10: for `N ≥ 1` and `s ≥ 1` without `size_t` wrap, the table holds exactly
`N / gcd(s, N)` distinct indices; it is a permutation of `[0, N)` exactly when
`gcd(s, N) = 1`, and it repeats an index whenever `gcd(s, N) > 1`. -/
theorem gather_distinct_indices (N : Nat) (s : Int) (hN : 1 ≤ N) (hs : 1 ≤ s)
    (hwrap : ((N : Int) - 1) * s < 2 ^ 64) :
    (make_gather_indices N s).toFinset.card = N / Nat.gcd s.toNat N ∧
    ((make_gather_indices N s).Perm (List.range N) ↔ Nat.gcd s.toNat N = 1) ∧
    (1 < Nat.gcd s.toNat N → ¬ (make_gather_indices N s).Nodup) := by
  have hcard : (make_gather_indices N s).toFinset.card = N / Nat.gcd s.toNat N := by
    have himg : ((List.range N).map fun i => i * s.toNat % N).toFinset
        = (Finset.range N).image fun i => i * s.toNat % N := by
      ext j
      simp
    rw [make_gather_indices_no_wrap N s (by omega) hwrap, himg]
    exact image_mul_mod_card N s.toNat hN
  have hgpos : 0 < Nat.gcd s.toNat N := Nat.gcd_pos_of_pos_right _ (by omega)
  have hone : N / Nat.gcd s.toNat N = N → Nat.gcd s.toNat N = 1 := by
    intro h
    by_contra hne
    have h2 : 2 ≤ Nat.gcd s.toNat N := by omega
    have : N / Nat.gcd s.toNat N < N := Nat.div_lt_self (by omega) h2
    omega
  have hnodup : (make_gather_indices N s).Nodup → Nat.gcd s.toNat N = 1 := by
    intro hnd
    apply hone
    rw [← hcard, List.toFinset_card_of_nodup hnd, make_gather_indices_length]
  refine ⟨hcard, ⟨fun hperm => hnodup (hperm.nodup_iff.mpr (List.nodup_range N)), ?_⟩,
    fun hg hnd => by have := hnodup hnd; omega⟩
  intro hg
  have hsub : (make_gather_indices N s).toFinset ⊆ Finset.range N := by
    intro j hj
    rw [List.mem_toFinset, make_gather_indices] at hj
    obtain ⟨i, _, rfl⟩ := List.mem_map.mp hj
    exact Finset.mem_range.mpr (Nat.mod_lt _ (by omega))
  have heq : (make_gather_indices N s).toFinset = Finset.range N := by
    apply Finset.eq_of_subset_of_card_le hsub
    rw [hcard, hg, Nat.div_one, Finset.card_range]
  have hnd : (make_gather_indices N s).Nodup := by
    have h := (Multiset.toFinset_card_eq_card_iff_nodup
      (m := ((make_gather_indices N s : List Nat) : Multiset Nat))).mp
    apply Multiset.coe_nodup.mp
    apply h
    rw [Multiset.coe_card, make_gather_indices_length]
    have h2 : (make_gather_indices N s).toFinset.card = N := by
      rw [hcard, hg, Nat.div_one]
    exact h2
  apply List.perm_of_nodup_nodup_toFinset_eq hnd (List.nodup_range N)
  rw [heq]
  ext j
  simp

/-- C10 witness: `N = 10`, `s = 4` (gcd 2) gives 5 distinct indices and a repeated index. -/
theorem gather_distinct_indices_witness :
    (1 ≤ 10 ∧ (1 : Int) ≤ 4 ∧ (((10 : Nat) : Int) - 1) * 4 < 2 ^ 64) ∧
    ((make_gather_indices 10 4).toFinset.card = 10 / Nat.gcd (4 : Int).toNat 10 ∧
     ((make_gather_indices 10 4).Perm (List.range 10) ↔ Nat.gcd (4 : Int).toNat 10 = 1) ∧
     (1 < Nat.gcd (4 : Int).toNat 10 → ¬ (make_gather_indices 10 4).Nodup)) :=
  ⟨by decide, gather_distinct_indices 10 4 (by decide) (by decide) (by decide)⟩

/-! ## Loops -/

theorem Outcome.returned_bind {σ τ : Type} (s : σ) (k : σ → Outcome τ) :
    (Outcome.returned s).bind k = k s := rfl

theorem Outcome.outOfFuel_bind {σ τ : Type} (k : σ → Outcome τ) :
    (Outcome.outOfFuel : Outcome σ).bind k = Outcome.outOfFuel := rfl

theorem for_each_pure {σ : Type} (f : Nat → σ → σ) (is : List Nat) (st : σ) :
    for_each (fun i s => Outcome.returned (f i s)) is st
      = Outcome.returned (is.foldl (fun s i => f i s) st) := by
  induction is generalizing st with
  | nil => rfl
  | cons i is ih => simp [for_each, Outcome.bind, ih]

theorem for_each_table {σ : Type} (f : Nat → σ → σ) (table : List Nat) (is : List Nat)
    (st : σ) (h : ∀ i ∈ is, i < table.length) :
    for_each (fun i s => (table_at table i).bind fun idx => Outcome.returned (f idx s)) is st
      = Outcome.returned (is.foldl (fun s i => f (table.getD i 0) s) st) := by
  induction is generalizing st with
  | nil => rfl
  | cons i is ih =>
    have hi : i < table.length := h i (List.mem_cons_self i is)
    have ht : table_at table i = Outcome.returned (table.getD i 0) := by
      simp [table_at, List.getElem?_eq_getElem hi, List.getD_eq_getElem?_getD]
    simp only [for_each, ht, Outcome.bind, List.foldl_cons]
    exact ih _ (fun j hj => h j (List.mem_cons_of_mem i hj))

/-- Ceiling division: `k < ⌈N / s⌉` exactly when `k * s < N`. -/
theorem lt_ceil_div_iff (N s k : Nat) (hs : 1 ≤ s) : k < (N + s - 1) / s ↔ k * s < N := by
  rw [Nat.lt_iff_add_one_le, Nat.le_div_iff_mul_le (by omega), Nat.add_mul]
  omega

/-- The strided loop without wrap (`⌈N / s⌉ * s < 2^64`): it stops after `⌈N / s⌉`
iterations, having run the body at `k * s` for each counter value `k` in turn. -/
theorem for_strided_returns {σ : Type} (N s : Nat) (hs : 1 ≤ s)
    (hwrap : (N + s - 1) / s * s < 2 ^ 64) (body : Nat → σ → σ) :
    ∀ (fuel k : Nat) (st : σ), k ≤ (N + s - 1) / s → (N + s - 1) / s - k < fuel →
      for_strided N s body fuel k st
        = Outcome.returned
            ((List.range' k ((N + s - 1) / s - k)).foldl (fun st i => body (i * s) st) st) := by
  have hNle : N ≤ (N + s - 1) / s * s := by
    by_contra h
    have := (lt_ceil_div_iff N s ((N + s - 1) / s) hs).mpr (by omega)
    omega
  have hmle : (N + s - 1) / s ≤ (N + s - 1) / s * s := Nat.le_mul_of_pos_right _ hs
  intro fuel
  induction fuel with
  | zero => intro k st _ h; omega
  | succ fuel ih =>
    intro k st hk hfuel
    rcases Nat.lt_or_ge k ((N + s - 1) / s) with hlt | hge
    · have hks : k * s < N := (lt_ceil_div_iff N s k hs).mp hlt
      have hmod : k * s % SIZE_T_RANGE = k * s := Nat.mod_eq_of_lt (by unfold SIZE_T_RANGE; omega)
      have hmod1 : (k + 1) % SIZE_T_RANGE = k + 1 :=
        Nat.mod_eq_of_lt (by unfold SIZE_T_RANGE; omega)
      have hlen : (N + s - 1) / s - k = ((N + s - 1) / s - (k + 1)) + 1 := by omega
      rw [for_strided, hmod, if_pos hks, hmod1, ih (k + 1) _ (by omega) (by omega), hlen,
        List.range'_succ, List.foldl_cons]
    · have hkm : k = (N + s - 1) / s := by omega
      have hnot : ¬ k * s < N := by
        rw [hkm]
        omega
      have hmod : k * s % SIZE_T_RANGE = k * s :=
        Nat.mod_eq_of_lt (by rw [hkm]; unfold SIZE_T_RANGE; omega)
      rw [for_strided, hmod, if_neg hnot, hkm, Nat.sub_self]
      rfl

/-- A strided loop whose condition holds at every counter value exhausts any budget. -/
theorem for_strided_diverges {σ : Type} (N s : Nat) (body : Nat → σ → σ)
    (h : ∀ i, i * s % SIZE_T_RANGE < N) :
    ∀ (fuel i : Nat) (st : σ), for_strided N s body fuel i st = Outcome.outOfFuel := by
  intro fuel
  induction fuel with
  | zero => intro i st; rfl
  | succ fuel ih =>
    intro i st
    rw [for_strided, if_pos (h i)]
    exact ih _ _

/-- Accesses of a loop whose body appends `acc idx` to the trace. -/
theorem foldl_trace {σ : Type} (f : Nat → Traced σ → Traced σ) (acc : Nat → List Access)
    (hf : ∀ idx st, (f idx st).trace = st.trace ++ acc idx) (is : List Nat)
    (st : Traced σ) :
    (is.foldl (fun s i => f i s) st).trace = st.trace ++ is.flatMap acc := by
  induction is generalizing st with
  | nil => simp
  | cons i is ih => simp [List.foldl_cons, ih, hf, List.append_assoc]


/-! ## Strided kernels -/

theorem saxpy_at_trace {α : Type} [Mul α] [Add α] (x : Nat → α) (a : α) (idx : Nat)
    (st : Traced (Nat → α)) :
    (saxpy_at x a idx st).trace = st.trace ++ [Access.read ArrayName.x idx,
      Access.read ArrayName.y idx, Access.write ArrayName.y idx] := rfl

theorem dot_at_trace {α : Type} [Mul α] [Add α] (x y : Nat → α) (idx : Nat) (st : Traced α) :
    (dot_at x y idx st).trace
      = st.trace ++ [Access.read ArrayName.x idx, Access.read ArrayName.y idx] := rfl

theorem mul_at_trace {α : Type} [Mul α] [Add α] (x y : Nat → α) (idx : Nat)
    (st : Traced (Nat → α)) :
    (mul_at x y idx st).trace = st.trace ++ [Access.read ArrayName.x idx,
      Access.read ArrayName.y idx, Access.write ArrayName.z idx] := rfl

/-- A strided loop whose body accesses only element `idx`, without wrap: it returns, and
its trace touches exactly the `⌈N / s⌉` indices `0, s, 2s, ...`, all below `N`. -/
theorem strided_loop_touches {σ : Type} (f : Nat → Traced σ → Traced σ)
    (acc : Nat → List Access) (hf : ∀ idx st, (f idx st).trace = st.trace ++ acc idx)
    (hacc : ∀ idx, acc idx ≠ [] ∧ ∀ a ∈ acc idx, a.idx = idx)
    (N : Nat) (s : Int) (hs : 1 ≤ s)
    (hwrap : (N + s.toNat - 1) / s.toNat * s.toNat < 2 ^ 64) (v : σ) :
    ∃ r : Traced σ,
      (∀ fuel, (N + s.toNat - 1) / s.toNat < fuel →
        for_strided N (to_size_t s) f fuel 0 ⟨v, []⟩ = Outcome.returned r) ∧
      touched r.trace = (Finset.range ((N + s.toNat - 1) / s.toNat)).image (fun k => k * s.toNat) ∧
      (touched r.trace).card = (N + s.toNat - 1) / s.toNat ∧
      ∀ a ∈ r.trace, a.idx < N := by
  obtain ⟨n, rfl⟩ : ∃ n : Nat, s = (n : Int) := ⟨s.toNat, by omega⟩
  simp only [Int.toNat_ofNat] at hwrap ⊢
  have hn : 1 ≤ n := by exact_mod_cast hs
  rcases Nat.eq_zero_or_pos N with hN0 | hNpos
  · subst hN0
    have hm : (n - 1) / n = 0 := by
      rw [Nat.div_eq_zero_iff (by omega)]
      omega
    refine ⟨⟨v, []⟩, ?_, ?_, ?_, ?_⟩
    · intro fuel hfuel
      cases fuel with
      | zero => exact absurd hfuel (Nat.not_lt_zero _)
      | succ fuel => simp [for_strided]
    · simp [touched, hm]
    · simp [touched, hm]
    · simp
  · have hmpos : 0 < (N + n - 1) / n := (lt_ceil_div_iff N n 0 hn).mpr (by omega)
    have hnlt : n < 2 ^ 64 := lt_of_le_of_lt (Nat.le_mul_of_pos_left n hmpos) hwrap
    have hconv : to_size_t (n : Int) = n := by
      rw [to_size_t_of_nonneg_lt _ (by omega) (by exact_mod_cast hnlt)]
      simp
    rw [hconv]
    have htrace : ((List.range' 0 ((N + n - 1) / n - 0)).foldl
        (fun st i => f (i * n) st) (⟨v, []⟩ : Traced σ)).trace
        = (List.range ((N + n - 1) / n)).flatMap (fun k => acc (k * n)) := by
      rw [foldl_trace (fun i st => f (i * n) st) (fun k => acc (k * n))
        (fun idx st => hf (idx * n) st)]
      simp [List.range_eq_range']
    have htouched : touched ((List.range ((N + n - 1) / n)).flatMap (fun k => acc (k * n)))
        = (Finset.range ((N + n - 1) / n)).image (fun k => k * n) := by
      ext j
      simp only [touched, List.mem_toFinset, List.mem_map, List.mem_flatMap, List.mem_range,
        Finset.mem_image, Finset.mem_range]
      constructor
      · rintro ⟨a, ⟨k, hk, ha⟩, rfl⟩
        exact ⟨k, hk, ((hacc (k * n)).2 a ha).symm⟩
      · rintro ⟨k, hk, rfl⟩
        obtain ⟨a, ha⟩ := List.exists_mem_of_ne_nil _ (hacc (k * n)).1
        exact ⟨a, ⟨k, hk, ha⟩, (hacc (k * n)).2 a ha⟩
    refine ⟨_, fun fuel hfuel =>
      for_strided_returns N n hn hwrap f fuel 0 ⟨v, []⟩ (Nat.zero_le _) (by simpa using hfuel),
      ?_, ?_, ?_⟩
    · rw [htrace, htouched]
    · rw [htrace, htouched, Finset.card_image_of_injective _
        (fun a b h => Nat.eq_of_mul_eq_mul_right (by omega : 0 < n) h), Finset.card_range]
    · intro a ha
      rw [htrace, List.mem_flatMap] at ha
      obtain ⟨k, hk, hak⟩ := ha
      rw [(hacc (k * n)).2 a hak]
      exact (lt_ceil_div_iff N n k hn).mp (List.mem_range.mp hk)

/-- The loop test of the strided loop cannot wrap for an `int` stride `s ≥ 1` and a length
`N ≤ 2^64 - 2^31`: in particular for every array that fits the address space. -/
theorem strided_test_no_wrap (N : Nat) (s : Int) (hs : 1 ≤ s) (hint : s ≤ 2147483647)
    (hN : N ≤ 2 ^ 64 - 2 ^ 31) : (N + s.toNat - 1) / s.toNat * s.toNat < 2 ^ 64 := by
  have h := Nat.div_mul_le_self (N + s.toNat - 1) s.toNat
  omega

/-- C3: for every `N` and every stride `s ≥ 1` with `⌈N / s⌉ * s < 2^64` (the loop test
`i * stride < N` is then evaluated without wrap; this holds for every `int` stride and every
`N ≤ 2^64 - 2^31`), the Strided branch of `saxpy_scalar`, `dot_scalar` and `mul_scalar`
returns once the loop budget exceeds `⌈N / s⌉`, and touches exactly the `⌈N / s⌉` distinct
element indices `0, s, 2s, ...`, each below `N`; no index `≥ N` is read or written. -/
theorem strided_kernels_touch_ceil {α : Type} [Mul α] [Add α] [Zero α] (N : Nat) (s : Int)
    (hs : 1 ≤ s) (hwrap : (N + s.toNat - 1) / s.toNat * s.toNat < 2 ^ 64)
    (x y z : Nat → α) (a : α)
    (gather_idx : Option (List Nat)) :
    ∃ (r1 : Traced (Nat → α)) (r2 : Traced α) (r3 : Traced (Nat → α)),
      (∀ fuel, (N + s.toNat - 1) / s.toNat < fuel →
        saxpy_scalar fuel y x a N AccessPattern.Strided s gather_idx = Outcome.returned r1 ∧
        dot_scalar fuel x y N AccessPattern.Strided s gather_idx = Outcome.returned r2 ∧
        mul_scalar fuel z x y N AccessPattern.Strided s gather_idx = Outcome.returned r3) ∧
      ∀ tr ∈ [r1.trace, r2.trace, r3.trace],
        touched tr = (Finset.range ((N + s.toNat - 1) / s.toNat)).image (fun k => k * s.toNat) ∧
        (touched tr).card = (N + s.toNat - 1) / s.toNat ∧
        ∀ acc ∈ tr, acc.idx < N := by
  obtain ⟨r1, h1, t1⟩ := strided_loop_touches (saxpy_at x a) _ (saxpy_at_trace x a)
    (fun idx => ⟨by simp, by simp [Access.idx]⟩) N s hs hwrap y
  obtain ⟨r2, h2, t2⟩ := strided_loop_touches (dot_at x y) _ (dot_at_trace x y)
    (fun idx => ⟨by simp, by simp [Access.idx]⟩) N s hs hwrap (0 : α)
  obtain ⟨r3, h3, t3⟩ := strided_loop_touches (mul_at x y) _ (mul_at_trace x y)
    (fun idx => ⟨by simp, by simp [Access.idx]⟩) N s hs hwrap z
  refine ⟨r1, r2, r3, fun fuel hfuel => ⟨?_, ?_, ?_⟩, ?_⟩
  · simpa [saxpy_scalar] using h1 fuel hfuel
  · simpa [dot_scalar] using h2 fuel hfuel
  · simpa [mul_scalar] using h3 fuel hfuel
  · intro tr htr
    simp only [List.mem_cons, List.mem_singleton, List.mem_nil_iff, or_false] at htr
    rcases htr with rfl | rfl | rfl
    · exact t1
    · exact t2
    · exact t3

/-- C3 witness: `N = 10`, `s = 3`: four indices `0, 3, 6, 9`. -/
theorem strided_kernels_touch_ceil_witness :
    ((1 : Int) ≤ 3 ∧ (10 + (3 : Int).toNat - 1) / (3 : Int).toNat * (3 : Int).toNat < 2 ^ 64) ∧
    ∃ (r1 : Traced (Nat → Int)) (r2 : Traced Int) (r3 : Traced (Nat → Int)),
      (∀ fuel, (10 + (3 : Int).toNat - 1) / (3 : Int).toNat < fuel →
        saxpy_scalar fuel (fun _ => 1) (fun i => (i : Int)) 3 10 AccessPattern.Strided 3 none
          = Outcome.returned r1 ∧
        dot_scalar fuel (fun i => (i : Int)) (fun _ => 1) 10 AccessPattern.Strided 3 none
          = Outcome.returned r2 ∧
        mul_scalar fuel (fun _ => 0) (fun i => (i : Int)) (fun _ => 1) 10
          AccessPattern.Strided 3 none = Outcome.returned r3) ∧
      ∀ tr ∈ [r1.trace, r2.trace, r3.trace],
        touched tr = (Finset.range ((10 + (3 : Int).toNat - 1) / (3 : Int).toNat)).image
          (fun k => k * (3 : Int).toNat) ∧
        (touched tr).card = (10 + (3 : Int).toNat - 1) / (3 : Int).toNat ∧
        ∀ acc ∈ tr, acc.idx < 10 :=
  ⟨by decide, strided_kernels_touch_ceil 10 3 (by decide) (by decide) (fun i => (i : Int))
    (fun _ => 1) (fun _ => 0) 3 none⟩

/-! ## Strided loop of the cache-miss test -/

/-- Without overflow `i += stride` yields the mathematical sum. -/
theorem int_add_no_overflow (a b : Int) (h0 : -2147483648 ≤ a + b)
    (h1 : a + b ≤ 2147483647) : int_add a b = a + b := by
  unfold int_add
  rw [Int.emod_eq_of_lt (by omega) (by omega)]
  omega

/-- The `int` strided loop without overflow (`⌈N / s⌉ * s ≤ 2^31 - 1`): it stops after
`⌈N / s⌉` iterations, having run the body at `k * s` for each counter value `k` in turn. -/
theorem for_int_stride_returns {σ : Type} (N s : Nat) (hs : 1 ≤ s)
    (hwrap : (N + s - 1) / s * s ≤ 2147483647) (f : Nat → σ → σ) :
    ∀ (fuel k : Nat) (st : σ), k ≤ (N + s - 1) / s → (N + s - 1) / s - k < fuel →
      for_int_stride (N : Int) (s : Int) (fun i st => Outcome.returned (f i st)) fuel
          ((k * s : Nat) : Int) st
        = Outcome.returned
            ((List.range' k ((N + s - 1) / s - k)).foldl (fun st i => f (i * s) st) st) := by
  have hNle : N ≤ (N + s - 1) / s * s := by
    by_contra h
    have := (lt_ceil_div_iff N s ((N + s - 1) / s) hs).mpr (by omega)
    omega
  intro fuel
  induction fuel with
  | zero => intro k st _ h; omega
  | succ fuel ih =>
    intro k st hk hfuel
    rcases Nat.lt_or_ge k ((N + s - 1) / s) with hlt | hge
    · have hks : k * s < N := (lt_ceil_div_iff N s k hs).mp hlt
      have hnext : (k + 1) * s ≤ (N + s - 1) / s * s := Nat.mul_le_mul_right s hlt
      have hadd : int_add ((k * s : Nat) : Int) (s : Int) = (((k + 1) * s : Nat) : Int) := by
        rw [int_add_no_overflow _ _ (by omega) (by push_cast at hnext ⊢; nlinarith)]
        push_cast
        ring
      have hlen : (N + s - 1) / s - k = ((N + s - 1) / s - (k + 1)) + 1 := by omega
      rw [for_int_stride, if_pos (by exact_mod_cast hks), if_neg (by omega), Int.toNat_ofNat,
        Outcome.returned_bind, hadd, ih (k + 1) _ (by omega) (by omega), hlen,
        List.range'_succ, List.foldl_cons]
    · have hkm : k = (N + s - 1) / s := by omega
      have hnot : ¬ ((k * s : Nat) : Int) < (N : Int) := by
        rw [hkm]
        exact_mod_cast Nat.not_lt.mpr hNle
      rw [for_int_stride, if_neg hnot, hkm, Nat.sub_self]
      rfl

/-- The accesses of a loop that runs a body touching only element `idx` at
`idx = 0, n, 2n, ...` for `⌈N / n⌉` iterations: exactly those indices, all below `N`. -/
theorem strided_fold_touches {σ : Type} (f : Nat → Traced σ → Traced σ)
    (acc : Nat → List Access) (hf : ∀ idx st, (f idx st).trace = st.trace ++ acc idx)
    (hacc : ∀ idx, acc idx ≠ [] ∧ ∀ a ∈ acc idx, a.idx = idx)
    (N n : Nat) (hn : 1 ≤ n) (v : σ) (r : Traced σ)
    (hr : r = (List.range' 0 ((N + n - 1) / n - 0)).foldl (fun st i => f (i * n) st) ⟨v, []⟩) :
    touched r.trace = (Finset.range ((N + n - 1) / n)).image (fun k => k * n) ∧
    (touched r.trace).card = (N + n - 1) / n ∧
    ∀ a ∈ r.trace, a.idx < N := by
  have htrace : r.trace = (List.range ((N + n - 1) / n)).flatMap (fun k => acc (k * n)) := by
    rw [hr, foldl_trace (fun i st => f (i * n) st) (fun k => acc (k * n))
      (fun idx st => hf (idx * n) st)]
    simp [List.range_eq_range']
  have htouched : touched ((List.range ((N + n - 1) / n)).flatMap (fun k => acc (k * n)))
      = (Finset.range ((N + n - 1) / n)).image (fun k => k * n) := by
    ext j
    simp only [touched, List.mem_toFinset, List.mem_map, List.mem_flatMap, List.mem_range,
      Finset.mem_image, Finset.mem_range]
    constructor
    · rintro ⟨a, ⟨k, hk, ha⟩, rfl⟩
      exact ⟨k, hk, ((hacc (k * n)).2 a ha).symm⟩
    · rintro ⟨k, hk, rfl⟩
      obtain ⟨a, ha⟩ := List.exists_mem_of_ne_nil _ (hacc (k * n)).1
      exact ⟨a, ⟨k, hk, ha⟩, (hacc (k * n)).2 a ha⟩
  refine ⟨?_, ?_, ?_⟩
  · rw [htrace, htouched]
  · rw [htrace, htouched, Finset.card_image_of_injective _
      (fun a b h => Nat.eq_of_mul_eq_mul_right (by omega : 0 < n) h), Finset.card_range]
  · intro a ha
    rw [htrace, List.mem_flatMap] at ha
    obtain ⟨k, hk, hak⟩ := ha
    rw [(hacc (k * n)).2 a hak]
    exact (lt_ceil_div_iff N n k hn).mp (List.mem_range.mp hk)

/-- The strided branch of `test_lambda` (`random_access` false) on arrays of `n ≥ 0` elements
with stride `s ≥ 1`, the counter not overflowing `int` (`⌈n / s⌉ * s ≤ 2^31 - 1`): it returns
once the loop budget exceeds `⌈n / s⌉`, and touches exactly the `⌈n / s⌉` distinct element
indices `0, s, 2s, ...`, each below `n`. -/
theorem test_lambda_strided_touches {α : Type} [Mul α] [Add α] (n : Nat) (s : Int)
    (hs : 1 ≤ s) (hwrap : (n + s.toNat - 1) / s.toNat * s.toNat ≤ 2147483647)
    (indices : List Int) (a : α) (x y : Nat → α) :
    ∃ r : Traced (Nat → α),
      (∀ fuel, (n + s.toNat - 1) / s.toNat < fuel →
        test_lambda fuel (n : Int) s false indices a x y = Outcome.returned r) ∧
      touched r.trace
        = (Finset.range ((n + s.toNat - 1) / s.toNat)).image (fun k => k * s.toNat) ∧
      (touched r.trace).card = (n + s.toNat - 1) / s.toNat ∧
      ∀ acc ∈ r.trace, acc.idx < n := by
  obtain ⟨m, rfl⟩ : ∃ m : Nat, s = (m : Int) := ⟨s.toNat, by omega⟩
  simp only [Int.toNat_ofNat] at hwrap ⊢
  have hm : 1 ≤ m := by exact_mod_cast hs
  refine ⟨_, fun fuel hfuel => ?_,
    strided_fold_touches (saxpy_at x a) _ (saxpy_at_trace x a)
      (fun idx => ⟨by simp, by simp [Access.idx]⟩) n m hm y _ rfl⟩
  have h := for_int_stride_returns n m hm hwrap (saxpy_at x a) fuel 0 ⟨y, []⟩ (Nat.zero_le _)
    (by simpa using hfuel)
  unfold test_lambda
  rw [if_neg (by decide)]
  simpa using h

/-- The cache-miss test at its smallest configuration after the unit one: a 1 KiB working set
(`n = 256`) and stride 2 touch 128 elements. -/
theorem test_lambda_strided_example :
    ∃ r : Traced (Nat → Int),
      (∀ fuel, 128 < fuel →
        test_lambda fuel 256 2 false [] 2 (fun i => (i : Int)) (fun i => 256 - (i : Int))
          = Outcome.returned r) ∧
      (touched r.trace).card = 128 ∧ ∀ acc ∈ r.trace, acc.idx < 256 := by
  obtain ⟨r, h1, _, h3, h4⟩ := test_lambda_strided_touches 256 2 (by decide) (by decide) []
    (2 : Int) (fun i => (i : Int)) (fun i => 256 - (i : Int))
  exact ⟨r, fun fuel hfuel => h1 fuel (by simpa using hfuel), by simpa using h3, h4⟩

/-! ## Stencil kernel -/

theorem stencil_at_trace {α : Type} [Mul α] [Add α] (x : Nat → α) (a b c : α) (idx : Nat)
    (st : Traced (Nat → α)) :
    (stencil_at x a b c idx st).trace = st.trace ++ stencil_accesses idx := rfl

theorem stencil_guarded_trace {α : Type} [Mul α] [Add α] (x : Nat → α) (a b c : α)
    (N idx : Nat) (st : Traced (Nat → α)) :
    (stencil_guarded x a b c N idx st).trace
      = st.trace ++ stencil_guarded_accesses N idx := by
  unfold stencil_guarded stencil_guarded_accesses
  split <;> simp [stencil_at_trace]

/-- Gather branch of the stencil with a table of at least `N - 1` entries: it returns,
having run the guarded statement at `table[i]` for `i = 1 .. N-2`. -/
theorem stencil_gather_returns {α : Type} [Mul α] [Add α] (y x : Nat → α) (a b c : α)
    (N : Nat) (s : Int) (table : List Nat) (hlen : N - 1 ≤ table.length) :
    ∃ r, stencil_scalar y x a b c N AccessPattern.Gather s (some table) = Outcome.returned r ∧
      r.trace = (List.range' 1 (N - 2)).flatMap
        (fun i => stencil_guarded_accesses N (table.getD i 0)) := by
  have hin : ∀ i ∈ List.range' 1 (N - 2), i < table.length := by
    intro i hi
    rw [List.mem_range'_1] at hi
    omega
  refine ⟨(List.range' 1 (N - 2)).foldl
    (fun st i => stencil_guarded x a b c N (table.getD i 0) st) ⟨y, []⟩, ?_, ?_⟩
  · unfold stencil_scalar
    rw [if_neg (by decide), if_neg (by decide)]
    exact for_each_table (stencil_guarded x a b c N) table _ _ hin
  · rw [foldl_trace
      (fun i st => stencil_guarded x a b c N (table.getD i 0) st)
      (fun i => stencil_guarded_accesses N (table.getD i 0))
      (fun i st => stencil_guarded_trace x a b c N _ st)]
    simp

/-- C6 (as stated, refuted): called with the Gather pattern and a null table on concrete
arrays of length 4, each of the four kernels returns normally, with its output unchanged
and no element accessed, instead of failing with a `ConfigurationError`. -/
theorem gather_null_table_counterexample :
    (saxpy_scalar 0 (fun _ => (1 : Int)) (fun _ => 2) 3 4 AccessPattern.Gather 1 none).bind
        (fun r => Outcome.returned ((List.range 4).map r.val, r.trace))
      = Outcome.returned ([1, 1, 1, 1], []) ∧
    (dot_scalar 0 (fun _ => (1 : Int)) (fun _ => 2) 4 AccessPattern.Gather 1 none).bind
        (fun r => Outcome.returned (r.val, r.trace))
      = Outcome.returned (0, []) ∧
    (mul_scalar 0 (fun _ => (5 : Int)) (fun _ => 1) (fun _ => 2) 4 AccessPattern.Gather 1
        none).bind (fun r => Outcome.returned ((List.range 4).map r.val, r.trace))
      = Outcome.returned ([5, 5, 5, 5], []) ∧
    (stencil_scalar (fun _ => (1 : Int)) (fun _ => 2) 1 2 3 4 AccessPattern.Gather 1 none).bind
        (fun r => Outcome.returned ((List.range 4).map r.val, r.trace))
      = Outcome.returned ([1, 1, 1, 1], []) := by
  refine ⟨by decide, by decide, by decide, by decide⟩

/-- C6 (amended): every kernel (SAXPY, dot, multiply, stencil) invoked with the Gather pattern
and a null index table returns normally without accessing any element, for every `N`, every
stride and every array contents: the output array is returned unchanged (for dot, the sum
is 0).  No `ConfigurationError` is raised. -/
theorem gather_null_table_is_noop {α : Type} [Mul α] [Add α] [Zero α] (fuel N : Nat)
    (stride : Int) (x y z : Nat → α) (a b c : α) :
    saxpy_scalar fuel y x a N AccessPattern.Gather stride none = Outcome.returned ⟨y, []⟩ ∧
    dot_scalar fuel x y N AccessPattern.Gather stride none = Outcome.returned ⟨0, []⟩ ∧
    mul_scalar fuel z x y N AccessPattern.Gather stride none = Outcome.returned ⟨z, []⟩ ∧
    stencil_scalar y x a b c N AccessPattern.Gather stride none = Outcome.returned ⟨y, []⟩ := by
  refine ⟨?_, ?_, ?_, ?_⟩
  · unfold saxpy_scalar
    rw [if_neg (by decide), if_neg (by decide)]
  · unfold dot_scalar
    rw [if_neg (by decide), if_neg (by decide)]
  · unfold mul_scalar
    rw [if_neg (by decide), if_neg (by decide)]
  · unfold stencil_scalar
    rw [if_neg (by decide), if_neg (by decide)]

/-! ## Timer -/

/-- C8 (as stated, refuted): for a measured duration of exactly 0 the divisor used is
`0.1` s, which is `10^9` times `1e-10` s and not below `1e-9` s. -/
theorem clamp_elapsed_floor_counterexample :
    clamp_elapsed 0 = 1 / 10 ∧
    clamp_elapsed 0 = 10 ^ 9 * (1 / 10 ^ 10) ∧
    ¬ clamp_elapsed 0 ≤ 1 / 10 ^ 9 := by
  refine ⟨by simp [clamp_elapsed], by norm_num [clamp_elapsed], by norm_num [clamp_elapsed]⟩

/-- C8 (amended): in `time_function`, when the measured elapsed time is exactly 0 the
throughput computation uses the floor 0.1 s in place of the elapsed time, and a positive
elapsed time is used as measured; for every elapsed `≥ 0` the divisor used is strictly
positive, so the quotient `flops_per_elem * N / elapsed / 1e9` is defined: multiplied
back by the divisor and by `1e9` it gives `flops_per_elem * N`. -/
theorem clamp_elapsed_positive (elapsed : ℚ) (h : 0 ≤ elapsed) (flops_per_elem : ℚ)
    (N : Nat) :
    (elapsed = 0 → clamp_elapsed elapsed = 1 / 10) ∧
    (0 < elapsed → clamp_elapsed elapsed = elapsed) ∧
    0 < clamp_elapsed elapsed ∧
    gflops flops_per_elem N elapsed * 1000000000 * clamp_elapsed elapsed
      = flops_per_elem * (N : ℚ) := by
  have hpos : 0 < clamp_elapsed elapsed := by
    unfold clamp_elapsed
    split
    · norm_num
    · exact lt_of_le_of_ne h (Ne.symm ‹_›)
  refine ⟨fun h0 => by simp [clamp_elapsed, h0], fun hp => by simp [clamp_elapsed, hp.ne'],
    hpos, ?_⟩
  unfold gflops
  field_simp
  ring

/-- C8 witness: a measured duration of 0 for SAXPY (2 flops per element) at `N = 4096`. -/
theorem clamp_elapsed_positive_witness :
    (0 : ℚ) ≤ 0 ∧
    ((0 : ℚ) = 0 → clamp_elapsed 0 = 1 / 10) ∧
    ((0 : ℚ) < 0 → clamp_elapsed 0 = 0) ∧
    0 < clamp_elapsed 0 ∧
    gflops 2 4096 0 * 1000000000 * clamp_elapsed 0 = 2 * ((4096 : Nat) : ℚ) :=
  ⟨le_refl 0, clamp_elapsed_positive 0 (le_refl 0) 2 4096⟩

/-! ## Driver -/

/-- Rows appended by `time_function` when every call of the kernel returns: one row per
run, in run order. -/
theorem time_function_returns {μ : Type} (g : Globals) (clock : Nat → ℚ) (f : μ → Outcome μ)
    (hf : ∀ m, ∃ m', f m = Outcome.returned m') (kernel : String) (flops_per_elem : ℚ)
    (N runs : Nat) (m : μ) (rows : List Row) :
    ∃ m' : μ,
      time_function g clock f kernel flops_per_elem N runs (m, rows)
        = Outcome.returned (m', rows ++ (List.range runs).map
            (fun run => csv_row g kernel run (clock run) flops_per_elem N)) := by
  unfold time_function
  have key : ∀ (is : List Nat) (m : μ) (rows : List Row),
      ∃ m' : μ,
        for_each (fun run (st : μ × List Row) => (f st.1).bind fun m => Outcome.returned
          (m, st.2 ++ [csv_row g kernel run (clock run) flops_per_elem N])) is (m, rows)
          = Outcome.returned (m', rows ++ is.map
              (fun run => csv_row g kernel run (clock run) flops_per_elem N)) := by
    intro is
    induction is with
    | nil => intro m rows; exact ⟨m, by simp [for_each]⟩
    | cons i is ih =>
      intro m rows
      obtain ⟨m1, hm1⟩ := hf m
      obtain ⟨m2, h1⟩ := ih m1 (rows ++ [csv_row g kernel i (clock i) flops_per_elem N])
      refine ⟨m2, ?_⟩
      rw [for_each, hm1, Outcome.returned_bind, Outcome.returned_bind, h1,
        List.append_assoc]
      rfl
  exact key (List.range runs) m rows

/-- A loop over a concatenation of counter lists is the two loops in sequence. -/
theorem for_each_append {σ : Type} (body : Nat → σ → Outcome σ) (is js : List Nat) (st : σ) :
    for_each body (is ++ js) st = (for_each body is st).bind (for_each body js) := by
  induction is generalizing st with
  | nil => rfl
  | cons i is ih =>
    rw [List.cons_append, for_each, for_each]
    cases body i st with
    | returned s => rw [Outcome.returned_bind, Outcome.returned_bind, ih]
    | fault f => rfl
    | outOfFuel => rfl

/-- While every counter value denotes an element inside the vectors, the fill loop returns. -/
theorem fill_loop_returns {α : Type} (g : Globals) (fill : Nat → α) (len : Nat)
    (is : List Nat) (h : ∀ i ∈ is, vector_position g i < len) (m : Arrays α) :
    ∃ mem : Arrays α, for_each (fill_step g fill len) is m = Outcome.returned mem := by
  induction is generalizing m with
  | nil => exact ⟨m, rfl⟩
  | cons i is ih =>
    rw [for_each, fill_step, if_pos (h i (List.mem_cons_self i is)), Outcome.returned_bind]
    exact ih (fun j hj => h j (List.mem_cons_of_mem i hj)) _

/-- With `g_aligned` set, the fill loop of `run_size` returns. -/
theorem fill_loop_aligned_returns {α : Type} (g : Globals) (hal : g.aligned = true)
    (fill : Nat → α) (N : Nat) (m : Arrays α) :
    ∃ mem : Arrays α,
      for_each (fill_step g fill (vector_length N)) (List.range N) m = Outcome.returned mem := by
  apply fill_loop_returns
  intro i hi
  simp only [vector_position, maybe_misalign, hal, if_true, vector_length]
  have := List.mem_range.mp hi
  omega

/-- With `g_aligned` cleared and `N ≥ 1`, the fill loop of `run_size` stores past the end of
the vectors at its last iteration: the fault `OutOfRange`. -/
theorem fill_loop_misaligned_faults {α : Type} (g : Globals) (hal : g.aligned = false)
    (fill : Nat → α) (N : Nat) (hN : 1 ≤ N) (m : Arrays α) :
    for_each (fill_step g fill (vector_length N)) (List.range N) m
      = Outcome.fault Failure.OutOfRange := by
  obtain ⟨n, rfl⟩ : ∃ n, N = n + 1 := ⟨N - 1, by omega⟩
  rw [List.range_succ, for_each_append]
  obtain ⟨mem, hmem⟩ := fill_loop_returns g fill (vector_length (n + 1)) (List.range n)
    (fun i hi => by
      simp only [vector_position, maybe_misalign, hal, vector_length]
      have := List.mem_range.mp hi
      simp only [Bool.false_eq_true, if_false]
      omega) m
  rw [hmem, Outcome.returned_bind, for_each, fill_step, if_neg, Outcome.bind]
  simp only [vector_position, maybe_misalign, hal, vector_length, Bool.false_eq_true, if_false]
  omega

/-- Under the Gather pattern with the table built for the same `N`, the SAXPY, dot and
multiply kernels return. -/
theorem gather_kernels_return {α : Type} [Mul α] [Add α] [Zero α] (fuel N : Nat)
    (s s' : Int) (x y z : Nat → α) (a : α) :
    (∃ r, saxpy_scalar fuel y x a N AccessPattern.Gather s (some (make_gather_indices N s'))
      = Outcome.returned r) ∧
    (∃ r, dot_scalar fuel x y N AccessPattern.Gather s (some (make_gather_indices N s'))
      = Outcome.returned r) ∧
    (∃ r, mul_scalar fuel z x y N AccessPattern.Gather s (some (make_gather_indices N s'))
      = Outcome.returned r) := by
  have hin : ∀ i ∈ List.range N, i < (make_gather_indices N s').length := by
    intro i hi
    rw [make_gather_indices_length]
    exact List.mem_range.mp hi
  refine ⟨?_, ?_, ?_⟩
  · unfold saxpy_scalar
    rw [if_neg (by decide), if_neg (by decide)]
    exact ⟨_, for_each_table (saxpy_at x a) _ _ _ hin⟩
  · unfold dot_scalar
    rw [if_neg (by decide), if_neg (by decide)]
    exact ⟨_, for_each_table (dot_at x y) _ _ _ hin⟩
  · unfold mul_scalar
    rw [if_neg (by decide), if_neg (by decide)]
    exact ⟨_, for_each_table (mul_at x y) _ _ _ hin⟩

/-- The rows of one working-set size: 40 of them, each carrying the configured stride, the
access label and the size. -/
theorem size_rows_fields (g : Globals) (clock : String → Nat → ℚ) (N : Nat) :
    (size_rows g clock N).length = 40 ∧
    ∀ r ∈ size_rows g clock N,
      r.stride = g.stride ∧ r.access = access_label g.access_pattern ∧ r.N = N := by
  refine ⟨by simp [size_rows], fun r hr => ?_⟩
  simp only [size_rows, List.mem_append, List.mem_map] at hr
  rcases hr with ((⟨_, _, rfl⟩ | ⟨_, _, rfl⟩) | ⟨_, _, rfl⟩) | ⟨_, _, rfl⟩ <;>
    exact ⟨rfl, rfl, rfl⟩

/-- With `g_aligned` set and under the Gather pattern `run_size` returns, having appended the
40 rows of the size. -/
theorem run_size_gather_returns {α : Type} [Mul α] [Add α] [Zero α] [NatCast α] (g : Globals)
    (hal : g.aligned = true) (hpat : g.access_pattern = AccessPattern.Gather)
    (clock : String → Nat → ℚ) (fill : Nat → α) (fuel N0 : Nat) (rows : List Row) :
    run_size g clock fill fuel N0 rows
      = Outcome.returned
          (rows ++ size_rows g clock (if g.tail then (N0 + 3) % SIZE_T_RANGE else N0)) := by
  unfold run_size
  simp only [hpat, if_true]
  generalize (if g.tail = true then (N0 + 3) % SIZE_T_RANGE else N0) = N
  obtain ⟨mem, hmem⟩ := fill_loop_aligned_returns g hal fill N
    { x := fun _ => 0, y := fun _ => 0, z := fun _ => 0 }
  rw [hmem, Outcome.returned_bind]
  obtain ⟨m1, h1⟩ := time_function_returns g (clock "SAXPY")
    (fun m : Arrays α => (saxpy_scalar fuel m.y m.x ((3 : Nat) : α) N AccessPattern.Gather
      g.stride (some (make_gather_indices N g.stride))).bind
      fun r => Outcome.returned { m with y := r.val })
    (fun m => by
      obtain ⟨r, hr⟩ := (gather_kernels_return fuel N g.stride g.stride m.x m.y m.z
        ((3 : Nat) : α)).1
      beta_reduce
      rw [hr]
      exact ⟨_, rfl⟩)
    "SAXPY" 2 N 10 mem rows
  obtain ⟨m2, h2⟩ := time_function_returns g (clock "DOT")
    (fun m : Arrays α => (dot_scalar fuel m.x m.y N AccessPattern.Gather
      g.stride (some (make_gather_indices N g.stride))).bind fun _ => Outcome.returned m)
    (fun m => by
      obtain ⟨r, hr⟩ := (gather_kernels_return fuel N g.stride g.stride m.x m.y m.z
        ((3 : Nat) : α)).2.1
      beta_reduce
      rw [hr]
      exact ⟨_, rfl⟩)
    "DOT" 2 N 10 m1
    (rows ++ (List.range 10).map (fun run => csv_row g "SAXPY" run (clock "SAXPY" run) 2 N))
  obtain ⟨m3, h3⟩ := time_function_returns g (clock "MUL")
    (fun m : Arrays α => (mul_scalar fuel m.z m.x m.y N AccessPattern.Gather
      g.stride (some (make_gather_indices N g.stride))).bind
      fun r => Outcome.returned { m with z := r.val })
    (fun m => by
      obtain ⟨r, hr⟩ := (gather_kernels_return fuel N g.stride g.stride m.x m.y m.z
        ((3 : Nat) : α)).2.2
      beta_reduce
      rw [hr]
      exact ⟨_, rfl⟩)
    "MUL" 1 N 10 m2
    (rows ++ (List.range 10).map (fun run => csv_row g "SAXPY" run (clock "SAXPY" run) 2 N)
      ++ (List.range 10).map (fun run => csv_row g "DOT" run (clock "DOT" run) 2 N))
  obtain ⟨m4, h4⟩ := time_function_returns g (clock "STENCIL")
    (fun m : Arrays α => (stencil_scalar m.y m.x ((1 : Nat) : α) ((2 : Nat) : α)
      ((3 : Nat) : α) N AccessPattern.Gather g.stride
      (some (make_gather_indices N g.stride))).bind
      fun r => Outcome.returned { m with y := r.val })
    (fun m => by
      obtain ⟨r, hr, _⟩ := stencil_gather_returns m.y m.x ((1 : Nat) : α) ((2 : Nat) : α)
        ((3 : Nat) : α) N g.stride (make_gather_indices N g.stride)
        (by rw [make_gather_indices_length]; omega)
      beta_reduce
      rw [hr]
      exact ⟨_, rfl⟩)
    "STENCIL" 5 N 10 m3
    (rows ++ (List.range 10).map (fun run => csv_row g "SAXPY" run (clock "SAXPY" run) 2 N)
      ++ (List.range 10).map (fun run => csv_row g "DOT" run (clock "DOT" run) 2 N)
      ++ (List.range 10).map (fun run => csv_row g "MUL" run (clock "MUL" run) 1 N))
  rw [h1, Outcome.returned_bind, h2, Outcome.returned_bind, h3, Outcome.returned_bind, h4,
    Outcome.returned_bind]
  simp only [size_rows, List.append_assoc]

/-- With `g_aligned` set and under the Gather pattern the loop over the sizes returns, with
the 40 rows of each size in turn. -/
theorem run_sizes_gather_returns {α : Type} [Mul α] [Add α] [Zero α] [NatCast α] (g : Globals)
    (hal : g.aligned = true) (hpat : g.access_pattern = AccessPattern.Gather)
    (clock : String → Nat → ℚ) (fill : Nat → α) (fuel : Nat) (sizes : List Nat)
    (rows : List Row) :
    run_sizes g clock fill fuel sizes rows
      = Outcome.returned (rows ++ sizes.flatMap
          (fun N0 => size_rows g clock (if g.tail then (N0 + 3) % SIZE_T_RANGE else N0))) := by
  induction sizes generalizing rows with
  | nil => simp [run_sizes]
  | cons N0 rest ih =>
    rw [run_sizes, run_size_gather_returns g hal hpat clock fill fuel N0 rows,
      Outcome.returned_bind, ih, List.flatMap_cons, List.append_assoc]

/-- With stride 0 the gather table is all zeros. -/
theorem make_gather_indices_zero (N : Nat) :
    make_gather_indices N 0 = List.replicate N 0 := by
  unfold make_gather_indices
  rw [to_size_t_zero]
  apply List.ext_getElem
  · simp
  · intro i h1 h2
    simp

/-- The strided loop of `saxpy_scalar` entered with stride 0 and `N ≥ 1` never exits: its
test `i * 0 < N` holds at every counter value, so no loop budget lets the call return. -/
theorem saxpy_stride_zero_diverges {α : Type} [Mul α] [Add α] (fuel N : Nat) (hN : 0 < N)
    (y x : Nat → α) (a : α) (tbl : Option (List Nat)) :
    saxpy_scalar fuel y x a N AccessPattern.Strided 0 tbl = Outcome.outOfFuel := by
  unfold saxpy_scalar
  rw [if_neg (by decide), if_pos rfl, to_size_t_zero]
  exact for_strided_diverges N 0 _ (fun i => by simpa using hN) fuel 0 _

/-- With `g_aligned` set, under the Strided pattern with stride 0 and a non-empty working
set, the first SAXPY call of `run_size` never leaves its loop: the loop test `i * 0 < N`
holds for every `i`, whatever the loop budget. -/
theorem run_size_stride_zero_diverges {α : Type} [Mul α] [Add α] [Zero α] [NatCast α]
    (g : Globals) (hal : g.aligned = true) (hpat : g.access_pattern = AccessPattern.Strided)
    (hs : g.stride = 0) (clock : String → Nat → ℚ) (fill : Nat → α) (fuel N0 : Nat)
    (rows : List Row) (hN : 0 < (if g.tail then (N0 + 3) % SIZE_T_RANGE else N0)) :
    run_size g clock fill fuel N0 rows = Outcome.outOfFuel := by
  unfold run_size
  simp only [hpat, hs]
  generalize (if g.tail = true then (N0 + 3) % SIZE_T_RANGE else N0) = N at hN
  obtain ⟨mem, hmem⟩ := fill_loop_aligned_returns g hal fill N
    { x := fun _ => 0, y := fun _ => 0, z := fun _ => 0 }
  rw [hmem, Outcome.returned_bind]
  have hk : ∀ (y x : Nat → α) (a : α) (tbl : Option (List Nat)),
      saxpy_scalar fuel y x a N AccessPattern.Strided 0 tbl = Outcome.outOfFuel :=
    fun y x a tbl => saxpy_stride_zero_diverges fuel N hN y x a tbl
  have hrange : List.range 10 = 0 :: List.range' 1 9 := by decide
  unfold time_function
  rw [hrange, for_each]
  simp only [hk, Outcome.outOfFuel_bind]

/-- With `g_aligned` cleared and a non-empty working set, `run_size` ends in the fault
`OutOfRange` at the fill loop, before any kernel is called and with no row written. -/
theorem run_size_misaligned_faults {α : Type} [Mul α] [Add α] [Zero α] [NatCast α]
    (g : Globals) (hal : g.aligned = false) (clock : String → Nat → ℚ) (fill : Nat → α)
    (fuel N0 : Nat) (rows : List Row)
    (hN : 0 < (if g.tail then (N0 + 3) % SIZE_T_RANGE else N0)) :
    run_size g clock fill fuel N0 rows = Outcome.fault Failure.OutOfRange := by
  unfold run_size
  generalize (if g.tail = true then (N0 + 3) % SIZE_T_RANGE else N0) = N at hN
  simp only []
  rw [fill_loop_misaligned_faults g hal fill N hN]
  rfl

/-- C7 (the code departs from the claim): a run configured with stride 0 is not rejected,
whatever the clock readings, the random values and the loop budget.  The command line
`pro1 i32 --stride=0` is parsed without any fault into the Strided pattern with stride 0 and
the default working-set size is `N = 8`; the strided loop of `saxpy_scalar` is then entered
with stride 0 and never exits, so that `main` never returns; in particular the run does not
end in a `ConfigurationError`.  The command line `pro1 i32 --gather=0` is accepted as well:
`main` returns exit status 0 with the 40 rows of all four kernels, ten runs each, every row
carrying stride 0, the access label `gather` and `N = 8`. -/
theorem stride_zero_not_rejected (clock : String → Nat → ℚ) (fill : Nat → Int) (fuel : Nat) :
    parse_args Globals.initial ["i32", "--stride=0"]
      = Outcome.returned (some ⟨true, false, AccessPattern.Strided, 0, "i32", ""⟩) ∧
    N_sweep 4 "" = Outcome.returned [8] ∧
    (∀ x y : Nat → Int,
      saxpy_scalar fuel y x 3 8 AccessPattern.Strided 0 none = Outcome.outOfFuel) ∧
    main_model clock fill fuel ["pro1", "i32", "--stride=0"] = Outcome.outOfFuel ∧
    main_model clock fill fuel ["pro1", "i32", "--stride=0"]
      ≠ Outcome.fault Failure.ConfigurationError ∧
    parse_args Globals.initial ["i32", "--gather=0"]
      = Outcome.returned (some ⟨true, false, AccessPattern.Gather, 0, "i32", ""⟩) ∧
    main_model clock fill fuel ["pro1", "i32", "--gather=0"]
      = Outcome.returned
          (0, size_rows ⟨true, false, AccessPattern.Gather, 0, "i32", ""⟩ clock 8) ∧
    (size_rows ⟨true, false, AccessPattern.Gather, 0, "i32", ""⟩ clock 8).length = 40 ∧
    ∀ r ∈ size_rows ⟨true, false, AccessPattern.Gather, 0, "i32", ""⟩ clock 8,
      r.stride = 0 ∧ r.access = "gather" ∧ r.N = 8 := by
  have hsw : N_sweep 4 "" = Outcome.returned [8] := by decide
  have hparse : parse_args Globals.initial ["i32", "--stride=0"]
      = Outcome.returned (some ⟨true, false, AccessPattern.Strided, 0, "i32", ""⟩) := by
    decide
  have hparse2 : parse_args Globals.initial ["i32", "--gather=0"]
      = Outcome.returned (some ⟨true, false, AccessPattern.Gather, 0, "i32", ""⟩) := by
    decide
  have hhang : main_model clock fill fuel ["pro1", "i32", "--stride=0"]
      = Outcome.outOfFuel := by
    have hdiv := run_size_stride_zero_diverges
      ⟨true, false, AccessPattern.Strided, 0, "i32", ""⟩ rfl rfl rfl clock fill fuel 8 []
      (by decide)
    unfold main_model
    rw [List.tail_cons, hparse, Outcome.returned_bind]
    simp only []
    rw [if_neg (by decide), if_neg (by decide), if_pos trivial]
    unfold run_demo
    rw [hsw, Outcome.returned_bind, run_sizes, hdiv]
    rfl
  have hfields := size_rows_fields ⟨true, false, AccessPattern.Gather, 0, "i32", ""⟩ clock 8
  refine ⟨hparse, hsw,
    fun x y => saxpy_stride_zero_diverges fuel 8 (by decide) y x 3 none,
    hhang, ?_, hparse2, ?_, hfields.1,
    fun r hr => ⟨(hfields.2 r hr).1, (hfields.2 r hr).2.1.trans (by decide),
      (hfields.2 r hr).2.2⟩⟩
  · rw [hhang]
    exact fun h => by cases h
  · have h1 := run_sizes_gather_returns
      ⟨true, false, AccessPattern.Gather, 0, "i32", ""⟩ rfl rfl clock fill fuel [8] []
    unfold main_model
    rw [List.tail_cons, hparse2, Outcome.returned_bind]
    simp only []
    rw [if_neg (by decide), if_neg (by decide), if_pos trivial]
    unfold run_demo
    rw [hsw, Outcome.returned_bind, h1, Outcome.returned_bind]
    simp

/-! ## Final values of the stencil -/

/-- A loop whose body at counter `i` stores `v (g i)` in element `g i` when the test `P (g i)`
holds and leaves every other element alone: an element that no counter hits keeps its
value. -/
theorem foldl_val_miss {α : Type} (body : Nat → Traced (Nat → α) → Traced (Nat → α))
    (g : Nat → Nat) (P : Nat → Prop)
    (hkeep : ∀ i st j, ¬ P (g i) ∨ j ≠ g i → (body i st).val j = st.val j)
    (is : List Nat) (st : Traced (Nat → α)) (j : Nat)
    (hmiss : ∀ i ∈ is, ¬ P (g i) ∨ j ≠ g i) :
    (is.foldl (fun st i => body i st) st).val j = st.val j := by
  induction is generalizing st with
  | nil => rfl
  | cons i is ih =>
    rw [List.foldl_cons, ih _ (fun k hk => hmiss k (List.mem_cons_of_mem i hk)),
      hkeep i st j (hmiss i (List.mem_cons_self i is))]

/-- In such a loop an element hit by some counter ends with `v` of its index. -/
theorem foldl_val_hit {α : Type} (body : Nat → Traced (Nat → α) → Traced (Nat → α))
    (g : Nat → Nat) (P : Nat → Prop) (v : Nat → α)
    (hset : ∀ i st, P (g i) → (body i st).val (g i) = v (g i))
    (hkeep : ∀ i st j, ¬ P (g i) ∨ j ≠ g i → (body i st).val j = st.val j)
    (is : List Nat) (st : Traced (Nat → α)) (j : Nat)
    (hhit : ∃ i ∈ is, P (g i) ∧ g i = j) :
    (is.foldl (fun st i => body i st) st).val j = v j := by
  induction is generalizing st with
  | nil =>
    obtain ⟨i, hi, _⟩ := hhit
    cases hi
  | cons i is ih =>
    rw [List.foldl_cons]
    by_cases htail : ∃ k ∈ is, P (g k) ∧ g k = j
    · exact ih _ htail
    · have hmiss : ∀ k ∈ is, ¬ P (g k) ∨ j ≠ g k := by
        intro k hk
        by_contra hcon
        push_neg at hcon
        exact htail ⟨k, hk, hcon.1, hcon.2.symm⟩
      rw [foldl_val_miss body g P hkeep is _ j hmiss]
      obtain ⟨k, hk, hP, hgk⟩ := hhit
      rcases List.mem_cons.mp hk with rfl | hk'
      · rw [← hgk]
        exact hset k st hP
      · exact absurd ⟨k, hk', hP, hgk⟩ htail

/-- The value stored by the stencil statement at `idx`. -/
theorem stencil_at_val {α : Type} [Mul α] [Add α] (x : Nat → α) (a b c : α) (idx : Nat)
    (st : Traced (Nat → α)) (j : Nat) :
    (stencil_at x a b c idx st).val j =
      if j = idx then
        a * x ((idx + SIZE_T_RANGE - 1) % SIZE_T_RANGE) + b * x idx
          + c * x ((idx + 1) % SIZE_T_RANGE)
      else st.val j := rfl

/-- The unit-stride branch of the stencil as a fold over the counters `1 .. N-2`. -/
theorem stencil_unit_eq {α : Type} [Mul α] [Add α] (y x : Nat → α) (a b c : α) (N : Nat)
    (s : Int) (gather_idx : Option (List Nat)) :
    stencil_scalar y x a b c N AccessPattern.UnitStride s gather_idx
      = Outcome.returned ((List.range' 1 (N - 2)).foldl
          (fun st i => stencil_at x a b c i st) ⟨y, []⟩) := by
  unfold stencil_scalar
  rw [if_pos rfl]
  exact for_each_pure (stencil_at x a b c) _ _

/-- The strided branch of the stencil as a fold over the counters `1 .. N-2`. -/
theorem stencil_strided_eq {α : Type} [Mul α] [Add α] (y x : Nat → α) (a b c : α) (N : Nat)
    (s : Int) (gather_idx : Option (List Nat)) :
    stencil_scalar y x a b c N AccessPattern.Strided s gather_idx
      = Outcome.returned ((List.range' 1 (N - 2)).foldl
          (fun st i => stencil_guarded x a b c N (i * to_size_t s % SIZE_T_RANGE) st)
          ⟨y, []⟩) := by
  unfold stencil_scalar
  rw [if_neg (by decide), if_pos rfl]
  exact for_each_pure
    (fun i st => stencil_guarded x a b c N (i * to_size_t s % SIZE_T_RANGE) st) _ _

/-- The guarded stencil statement stores the stencil value at an index that passes the
guard. -/
theorem stencil_guarded_set {α : Type} [Mul α] [Add α] (x : Nat → α) (a b c : α)
    (N idx : Nat) (st : Traced (Nat → α))
    (hg : 0 < idx ∧ (idx + 1) % SIZE_T_RANGE < N) :
    (stencil_guarded x a b c N idx st).val idx =
      a * x ((idx + SIZE_T_RANGE - 1) % SIZE_T_RANGE) + b * x idx
        + c * x ((idx + 1) % SIZE_T_RANGE) := by
  unfold stencil_guarded
  rw [if_pos hg, stencil_at_val, if_pos rfl]

/-- The guarded stencil statement leaves every element alone except the guarded index. -/
theorem stencil_guarded_keep {α : Type} [Mul α] [Add α] (x : Nat → α) (a b c : α)
    (N idx : Nat) (st : Traced (Nat → α)) (j : Nat)
    (h : ¬ (0 < idx ∧ (idx + 1) % SIZE_T_RANGE < N) ∨ j ≠ idx) :
    (stencil_guarded x a b c N idx st).val j = st.val j := by
  unfold stencil_guarded
  split
  · rename_i hg
    rcases h with h | h
    · exact absurd hg h
    · rw [stencil_at_val, if_neg h]
  · rfl

/-- Every write of the stencil statement goes to `y`. -/
theorem stencil_guarded_accesses_write (N idx : Nat) (acc : Access)
    (hacc : acc ∈ stencil_guarded_accesses N idx) (arr : ArrayName) (i : Nat)
    (hw : acc = Access.write arr i) : arr = ArrayName.y := by
  unfold stencil_guarded_accesses at hacc
  split at hacc
  · simp only [stencil_accesses, List.mem_cons, List.mem_singleton, List.mem_nil_iff,
      or_false] at hacc
    rcases hacc with rfl | rfl | rfl | rfl <;> cases hw
    rfl
  · cases hacc

/-- Without wrap (`(N - 2) * s < 2^64 - 1`) the strided stencil loop computes `idx = i * s`
exactly, below `2^64 - 1`. -/
theorem strided_product_exact (N : Nat) (s : Int) (hs : 1 ≤ s)
    (hbound : ((N : Int) - 2) * s < 2 ^ 64 - 1) (i : Nat) (hi1 : 1 ≤ i) (hi2 : i + 1 < N) :
    i * to_size_t s % SIZE_T_RANGE = i * s.toNat ∧ i * s.toNat < 2 ^ 64 - 1 := by
  obtain ⟨n, rfl⟩ : ∃ n : Nat, s = (n : Int) := ⟨s.toNat, by omega⟩
  have hn : 1 ≤ n := by exact_mod_cast hs
  have hb : (N - 2) * n < 2 ^ 64 - 1 := by
    have h2 : ((N - 2 : Nat) : Int) = (N : Int) - 2 := by omega
    have h3 : (((N - 2) * n : Nat) : Int) < 2 ^ 64 - 1 := by
      push_cast
      rw [h2]
      exact hbound
    omega
  have hin : i * n < 2 ^ 64 - 1 :=
    lt_of_le_of_lt (Nat.mul_le_mul_right n (by omega)) hb
  have hnlt : n < 2 ^ 64 :=
    lt_of_le_of_lt (Nat.le_mul_of_pos_left n (by omega : 0 < i)) (by omega)
  have hconv : to_size_t (n : Int) = n := by
    rw [to_size_t_of_nonneg_lt _ (by omega) (by exact_mod_cast hnlt)]
    simp
  simp only [Int.toNat_ofNat]
  rw [hconv, SIZE_T_RANGE, Nat.mod_eq_of_lt (by omega)]
  exact ⟨rfl, hin⟩

/-- Every write of the unguarded stencil statement goes to `y`. -/
theorem stencil_accesses_write (idx : Nat) (acc : Access) (hacc : acc ∈ stencil_accesses idx)
    (arr : ArrayName) (i : Nat) (hw : acc = Access.write arr i) : arr = ArrayName.y := by
  simp only [stencil_accesses, List.mem_cons, List.mem_singleton, List.mem_nil_iff,
    or_false] at hacc
  rcases hacc with rfl | rfl | rfl | rfl <;> cases hw
  rfl

/-- The index expressions of the stencil statement at an interior index. -/
theorem stencil_value_interior {α : Type} [Mul α] [Add α] (x : Nat → α) (a b c : α)
    (N j : Nat) (hN : N < 2 ^ 64) (h1 : 1 ≤ j) (h2 : j + 2 ≤ N) :
    a * x ((j + SIZE_T_RANGE - 1) % SIZE_T_RANGE) + b * x j + c * x ((j + 1) % SIZE_T_RANGE)
      = a * x (j - 1) + b * x j + c * x (j + 1) := by
  have e1 : (j + SIZE_T_RANGE - 1) % SIZE_T_RANGE = j - 1 := by
    unfold SIZE_T_RANGE
    omega
  have e2 : (j + 1) % SIZE_T_RANGE = j + 1 := by
    unfold SIZE_T_RANGE
    omega
  rw [e1, e2]

/-- The strided branch of the stencil, whatever the stride: an element hit by a loop counter
whose index passes the guard ends with the stencil value of that index, and an element hit
by no such counter keeps its value. -/
theorem stencil_strided_hit_or_miss {α : Type} [Mul α] [Add α] (y x : Nat → α) (a b c : α)
    (N : Nat) (s : Int) (gather_idx : Option (List Nat)) :
    ∃ r, stencil_scalar y x a b c N AccessPattern.Strided s gather_idx = Outcome.returned r ∧
      (∀ j, (∃ i, 1 ≤ i ∧ i + 1 < N ∧ i * to_size_t s % SIZE_T_RANGE = j ∧
          0 < j ∧ (j + 1) % SIZE_T_RANGE < N) →
        r.val j = a * x ((j + SIZE_T_RANGE - 1) % SIZE_T_RANGE) + b * x j
          + c * x ((j + 1) % SIZE_T_RANGE)) ∧
      (∀ j, (∀ i, 1 ≤ i → i + 1 < N → i * to_size_t s % SIZE_T_RANGE = j →
          ¬ (0 < j ∧ (j + 1) % SIZE_T_RANGE < N)) → r.val j = y j) := by
  refine ⟨_, stencil_strided_eq y x a b c N s gather_idx, ?_, ?_⟩
  · rintro j ⟨i, hi1, hi2, hij, hP⟩
    exact foldl_val_hit
      (fun i st => stencil_guarded x a b c N (i * to_size_t s % SIZE_T_RANGE) st)
      (fun i => i * to_size_t s % SIZE_T_RANGE)
      (fun idx => 0 < idx ∧ (idx + 1) % SIZE_T_RANGE < N)
      (fun idx => a * x ((idx + SIZE_T_RANGE - 1) % SIZE_T_RANGE) + b * x idx
        + c * x ((idx + 1) % SIZE_T_RANGE))
      (fun i st hg => stencil_guarded_set x a b c N _ st hg)
      (fun i st j hk => stencil_guarded_keep x a b c N _ st j hk)
      _ _ j ⟨i, by rw [List.mem_range'_1]; omega, by beta_reduce; rw [hij]; exact hP, hij⟩
  · intro j hj
    apply foldl_val_miss
      (fun i st => stencil_guarded x a b c N (i * to_size_t s % SIZE_T_RANGE) st)
      (fun i => i * to_size_t s % SIZE_T_RANGE)
      (fun idx => 0 < idx ∧ (idx + 1) % SIZE_T_RANGE < N)
      (fun i st j hk => stencil_guarded_keep x a b c N _ st j hk)
    intro i hi
    rw [List.mem_range'_1] at hi
    by_cases hji : j = i * to_size_t s % SIZE_T_RANGE
    · left
      beta_reduce
      rw [← hji]
      exact hj i hi.1 (by omega) hji.symm
    · right
      exact hji

/-- C11 (as stated, refuted): under the Strided pattern with `N = 8589934599` and stride
`2147483647`, the loop counter `i = 8589934597` gives the `size_t` product
`i * stride = 2^64 + 2147483643`, which wraps to `idx = 2147483643`; the guard passes and
`y[2147483643]` receives the stencil value 6 although the stride does not divide that
index (its old value is 0). -/
theorem stencil_strided_values_counterexample :
    ∃ r : Traced (Nat → Int),
      stencil_scalar (fun _ => 0) (fun _ => 1) 1 2 3 8589934599 AccessPattern.Strided
        2147483647 none = Outcome.returned r ∧
      r.val 2147483643 = 6 ∧
      ¬ ((2147483647 : Int).toNat ∣ 2147483643) ∧
      (1 ≤ 2147483643 ∧ 2147483643 + 2 ≤ 8589934599) := by
  obtain ⟨r, hr, hhit, _⟩ := stencil_strided_hit_or_miss (fun _ => (0 : Int)) (fun _ => 1)
    1 2 3 8589934599 2147483647 none
  refine ⟨r, hr, ?_, by decide, by decide⟩
  have hs : to_size_t 2147483647 = 2147483647 := by decide
  have hidx : 8589934597 * 2147483647 % SIZE_T_RANGE = 2147483643 := by
    norm_num [SIZE_T_RANGE]
  rw [hhit 2147483643 ⟨8589934597, by omega, by omega, by rw [hs, hidx], by omega,
    by norm_num [SIZE_T_RANGE]⟩]
  norm_num

/-- C11 (amended): for every `N` (a `size_t`), coefficients `a`, `b`, `c` and distinct arrays
`x`, `y`, `stencil_scalar` returns under UnitStride (step `d = 1`) and under Strided with a
stride `s ≥ 1` such that `(N - 2) * s < 2^64 - 1` (step `d = s`; no `size_t` product
`i * stride` of the loop wraps).  The result satisfies
`y'[j] = a*x[j-1] + b*x[j] + c*x[j+1]` for exactly the indices `j` with `1 ≤ j ≤ N - 2` and
`d` dividing `j`, and `y'[j] = y[j]` for every other `j`; every write goes to `y`, so `x` is
unchanged. -/
theorem stencil_values {α : Type} [Mul α] [Add α] (N : Nat) (hN : N < 2 ^ 64)
    (pattern : AccessPattern) (s : Int) (d : Nat) (a b c : α) (x y : Nat → α)
    (gather_idx : Option (List Nat))
    (hpat : (pattern = AccessPattern.UnitStride ∧ d = 1) ∨
      (pattern = AccessPattern.Strided ∧ 1 ≤ s ∧ ((N : Int) - 2) * s < 2 ^ 64 - 1 ∧
        d = s.toNat)) :
    ∃ r, stencil_scalar y x a b c N pattern s gather_idx = Outcome.returned r ∧
      (∀ j, 1 ≤ j ∧ j + 2 ≤ N ∧ d ∣ j →
        r.val j = a * x (j - 1) + b * x j + c * x (j + 1)) ∧
      (∀ j, ¬ (1 ≤ j ∧ j + 2 ≤ N ∧ d ∣ j) → r.val j = y j) ∧
      ∀ acc ∈ r.trace, ∀ arr i, acc = Access.write arr i → arr = ArrayName.y := by
  rcases hpat with ⟨rfl, rfl⟩ | ⟨rfl, hs, hbound, rfl⟩
  · refine ⟨_, stencil_unit_eq y x a b c N s gather_idx, ?_, ?_, ?_⟩
    · rintro j ⟨h1, h2, _⟩
      rw [foldl_val_hit (stencil_at x a b c) id (fun _ => True)
        (fun idx => a * x ((idx + SIZE_T_RANGE - 1) % SIZE_T_RANGE) + b * x idx
          + c * x ((idx + 1) % SIZE_T_RANGE))
        (fun i st _ => by rw [stencil_at_val]; exact if_pos rfl)
        (fun i st k hk => by
          rcases hk with hk | hk
          · exact absurd trivial hk
          · rw [stencil_at_val]
            exact if_neg hk)
        _ _ j ⟨j, by rw [List.mem_range'_1]; omega, trivial, rfl⟩]
      exact stencil_value_interior x a b c N j hN h1 h2
    · intro j hj
      apply foldl_val_miss (stencil_at x a b c) id (fun _ => True)
        (fun i st k hk => by
          rcases hk with hk | hk
          · exact absurd trivial hk
          · rw [stencil_at_val]
            exact if_neg hk)
      intro i hi
      rw [List.mem_range'_1] at hi
      right
      intro hji
      apply hj
      rw [hji]
      exact ⟨hi.1, by simp only [id]; omega, one_dvd _⟩
    · intro acc hacc arr i hw
      rw [foldl_trace (stencil_at x a b c) stencil_accesses (stencil_at_trace x a b c),
        List.nil_append, List.mem_flatMap] at hacc
      obtain ⟨k, _, hk⟩ := hacc
      exact stencil_accesses_write k acc hk arr i hw
  · refine ⟨_, stencil_strided_eq y x a b c N s gather_idx, ?_, ?_, ?_⟩
    · rintro j ⟨h1, h2, k, rfl⟩
      have hk1 : 1 ≤ k := by
        rcases Nat.eq_zero_or_pos k with h0 | h0
        · rw [h0, Nat.mul_zero] at h1
          omega
        · exact h0
      have hspos : 1 ≤ s.toNat := by omega
      have hkle : k ≤ s.toNat * k := Nat.le_mul_of_pos_left k hspos
      have hex := strided_product_exact N s hs hbound k hk1 (by omega)
      have hjk : s.toNat * k = k * s.toNat := Nat.mul_comm _ _
      have hP : 0 < s.toNat * k ∧ (s.toNat * k + 1) % SIZE_T_RANGE < N := by
        refine ⟨by omega, ?_⟩
        rw [SIZE_T_RANGE, Nat.mod_eq_of_lt (by omega)]
        omega
      rw [foldl_val_hit
        (fun i st => stencil_guarded x a b c N (i * to_size_t s % SIZE_T_RANGE) st)
        (fun i => i * to_size_t s % SIZE_T_RANGE)
        (fun idx => 0 < idx ∧ (idx + 1) % SIZE_T_RANGE < N)
        (fun idx => a * x ((idx + SIZE_T_RANGE - 1) % SIZE_T_RANGE) + b * x idx
          + c * x ((idx + 1) % SIZE_T_RANGE))
        (fun i st hg => stencil_guarded_set x a b c N _ st hg)
        (fun i st j hk => stencil_guarded_keep x a b c N _ st j hk)
        _ _ (s.toNat * k)
        ⟨k, by rw [List.mem_range'_1]; omega, by beta_reduce; rw [hex.1, ← hjk]; exact hP,
          by beta_reduce; rw [hex.1, hjk]⟩]
      exact stencil_value_interior x a b c N _ hN h1 h2
    · intro j hj
      apply foldl_val_miss
        (fun i st => stencil_guarded x a b c N (i * to_size_t s % SIZE_T_RANGE) st)
        (fun i => i * to_size_t s % SIZE_T_RANGE)
        (fun idx => 0 < idx ∧ (idx + 1) % SIZE_T_RANGE < N)
        (fun i st j hk => stencil_guarded_keep x a b c N _ st j hk)
      intro i hi
      rw [List.mem_range'_1] at hi
      have hex := strided_product_exact N s hs hbound i hi.1 (by omega)
      rw [hex.1]
      by_contra hcon
      push_neg at hcon
      obtain ⟨⟨hpos, hlt⟩, hji⟩ := hcon
      rw [SIZE_T_RANGE, Nat.mod_eq_of_lt (by omega)] at hlt
      apply hj
      rw [hji]
      exact ⟨hpos, by omega, Dvd.intro_left i rfl⟩
    · intro acc hacc arr i hw
      rw [foldl_trace
        (fun i st => stencil_guarded x a b c N (i * to_size_t s % SIZE_T_RANGE) st)
        (fun i => stencil_guarded_accesses N (i * to_size_t s % SIZE_T_RANGE))
        (fun i st => stencil_guarded_trace x a b c N _ st),
        List.nil_append, List.mem_flatMap] at hacc
      obtain ⟨k, _, hk⟩ := hacc
      exact stencil_guarded_accesses_write N _ acc hk arr i hw

/-- C11 witness: `N = 10` under the Strided pattern with stride 3 (written indices 3, 6). -/
theorem stencil_values_witness :
    (10 < 2 ^ 64 ∧
      ((AccessPattern.Strided = AccessPattern.UnitStride ∧ 3 = 1) ∨
        (AccessPattern.Strided = AccessPattern.Strided ∧ (1 : Int) ≤ 3 ∧
          (((10 : Nat) : Int) - 2) * 3 < 2 ^ 64 - 1 ∧ 3 = (3 : Int).toNat))) ∧
    ∃ r, stencil_scalar (fun _ => (0 : Int)) (fun i => (i : Int)) 1 2 3 10
        AccessPattern.Strided 3 none = Outcome.returned r ∧
      (∀ j, 1 ≤ j ∧ j + 2 ≤ 10 ∧ 3 ∣ j →
        r.val j = 1 * ((j - 1 : Nat) : Int) + 2 * ((j : Nat) : Int)
          + 3 * ((j + 1 : Nat) : Int)) ∧
      (∀ j, ¬ (1 ≤ j ∧ j + 2 ≤ 10 ∧ 3 ∣ j) → r.val j = 0) ∧
      ∀ acc ∈ r.trace, ∀ arr i, acc = Access.write arr i → arr = ArrayName.y :=
  ⟨⟨by decide, Or.inr ⟨rfl, by decide, by decide, rfl⟩⟩,
    stencil_values 10 (by decide) AccessPattern.Strided 3 3 1 2 3 (fun i => (i : Int))
      (fun _ => (0 : Int)) none (Or.inr ⟨rfl, by decide, by decide, rfl⟩)⟩

/-! ## Final values of SAXPY -/

/-- The value stored by the SAXPY statement at `idx`. -/
theorem saxpy_at_val {α : Type} [Mul α] [Add α] (x : Nat → α) (a : α) (idx : Nat)
    (st : Traced (Nat → α)) (j : Nat) :
    (saxpy_at x a idx st).val j = if j = idx then a * x idx + st.val idx else st.val j :=
  rfl

/-- A counting loop that reads its index from a table of `N` entries visits the entries of
the table in order. -/
theorem foldl_table {σ : Type} (f : Nat → σ → σ) (table : List Nat) (N : Nat)
    (hlen : table.length = N) (st : σ) :
    (List.range N).foldl (fun s i => f (table.getD i 0) s) st
      = table.foldl (fun s idx => f idx s) st := by
  have hmap : (List.range N).map (fun i => table.getD i 0) = table := by
    apply List.ext_getElem
    · simp [hlen]
    · intro i h1 h2
      simp only [List.getElem_map, List.getElem_range]
      exact List.getD_eq_getElem _ _ h2
  calc (List.range N).foldl (fun s i => f (table.getD i 0) s) st
      = ((List.range N).map (fun i => table.getD i 0)).foldl (fun s idx => f idx s) st := by
        rw [List.foldl_map]
    _ = table.foldl (fun s idx => f idx s) st := by rw [hmap]

/-- The unit-stride branch of SAXPY as a fold over the indices `0 .. N-1`. -/
theorem saxpy_unit_eq {α : Type} [Mul α] [Add α] (fuel : Nat) (y x : Nat → α) (a : α)
    (N : Nat) (s : Int) (gather_idx : Option (List Nat)) :
    saxpy_scalar fuel y x a N AccessPattern.UnitStride s gather_idx
      = Outcome.returned ((List.range N).foldl (fun st i => saxpy_at x a i st) ⟨y, []⟩) := by
  unfold saxpy_scalar
  rw [if_pos rfl]
  exact for_each_pure (saxpy_at x a) _ _

/-- The gather branch of SAXPY with the table built for the same `N`, as a fold over the
entries of the table. -/
theorem saxpy_gather_eq {α : Type} [Mul α] [Add α] (fuel : Nat) (y x : Nat → α) (a : α)
    (N : Nat) (s s' : Int) :
    saxpy_scalar fuel y x a N AccessPattern.Gather s (some (make_gather_indices N s'))
      = Outcome.returned ((make_gather_indices N s').foldl
          (fun st idx => saxpy_at x a idx st) ⟨y, []⟩) := by
  have hin : ∀ i ∈ List.range N, i < (make_gather_indices N s').length := by
    intro i hi
    rw [make_gather_indices_length]
    exact List.mem_range.mp hi
  unfold saxpy_scalar
  rw [if_neg (by decide), if_neg (by decide)]
  rw [← foldl_table (saxpy_at x a) (make_gather_indices N s') N
    (make_gather_indices_length N s')]
  exact for_each_table (saxpy_at x a) _ _ _ hin

/-- An index that the loop does not visit keeps its value. -/
theorem saxpy_foldl_untouched {α : Type} [Mul α] [Add α] (x : Nat → α) (a : α)
    (idxs : List Nat) (st : Traced (Nat → α)) (j : Nat) (hj : j ∉ idxs) :
    (idxs.foldl (fun st idx => saxpy_at x a idx st) st).val j = st.val j := by
  induction idxs generalizing st with
  | nil => rfl
  | cons i is ih =>
    have hne : j ≠ i := fun h => hj (by rw [h]; exact List.mem_cons_self i is)
    rw [List.foldl_cons, ih _ (fun h => hj (List.mem_cons_of_mem i h)), saxpy_at_val,
      if_neg hne]

/-- An index that the loop visits exactly once ends with `a * x[j] + y[j]`. -/
theorem saxpy_foldl_nodup {α : Type} [Mul α] [Add α] (x : Nat → α) (a : α)
    (idxs : List Nat) (hnd : idxs.Nodup) (st : Traced (Nat → α)) (j : Nat) (hj : j ∈ idxs) :
    (idxs.foldl (fun st idx => saxpy_at x a idx st) st).val j = a * x j + st.val j := by
  induction idxs generalizing st with
  | nil => cases hj
  | cons i is ih =>
    rw [List.nodup_cons] at hnd
    rw [List.foldl_cons]
    rcases List.mem_cons.mp hj with rfl | hmem
    · rw [saxpy_foldl_untouched x a is _ j hnd.1, saxpy_at_val, if_pos rfl]
    · have hne : j ≠ i := fun h => hnd.1 (by rw [← h]; exact hmem)
      rw [ih hnd.2 _ hmem, saxpy_at_val, if_neg hne]

/-- With `a = 1` and `x` constantly 1 over the integers, SAXPY adds to `y[j]` the number of
times the loop visits `j`. -/
theorem saxpy_foldl_count (idxs : List Nat) (st : Traced (Nat → Int)) (j : Nat) :
    (idxs.foldl (fun st idx => saxpy_at (fun _ => (1 : Int)) 1 idx st) st).val j
      = st.val j + (idxs.count j : Int) := by
  induction idxs generalizing st with
  | nil => simp
  | cons i is ih =>
    rw [List.foldl_cons, ih, saxpy_at_val, List.count_cons]
    by_cases h : j = i
    · subst h
      simp
      ring
    · have h' : ¬ (i == j) = true := by simpa using fun hh : i = j => h hh.symm
      simp [h, h']

/-- Two counters with the same entry make that entry occur at least twice in the table. -/
theorem count_map_range_two (f : Nat → Nat) (w : Nat) :
    ∀ N i1 i0, i1 < i0 → i0 < N → f i1 = w → f i0 = w →
      2 ≤ ((List.range N).map f).count w := by
  intro N
  induction N with
  | zero => intro i1 i0 _ h; omega
  | succ N ih =>
    intro i1 i0 h1 h0 e1 e0
    rw [List.range_succ, List.map_append, List.count_append]
    rcases Nat.lt_or_ge i0 N with hlt | hge
    · have := ih i1 i0 h1 hlt e1 e0
      omega
    · have hi0 : i0 = N := by omega
      subst hi0
      have hfirst : 1 ≤ ((List.range i0).map f).count w :=
        List.one_le_count_iff.mpr (List.mem_map.mpr ⟨i1, List.mem_range.mpr h1, e1⟩)
      have hlast : ([i0].map f).count w = 1 := by simp [e0]
      omega

/-- Without wrap the table holds exactly `N / gcd(s, N)` distinct indices. -/
theorem make_gather_indices_card (N : Nat) (s : Int) (hN : 1 ≤ N) (hs : 1 ≤ s)
    (hwrap : ((N : Int) - 1) * s < 2 ^ 64) :
    (make_gather_indices N s).toFinset.card = N / Nat.gcd s.toNat N := by
  have himg : ((List.range N).map fun i => i * s.toNat % N).toFinset
      = (Finset.range N).image fun i => i * s.toNat % N := by
    ext j
    simp
  rw [make_gather_indices_no_wrap N s (by omega) hwrap, himg]
  exact image_mul_mod_card N s.toNat hN

/-- Without wrap and with `gcd(s, N) = 1` the table has no repeated entry and holds every
index below `N`. -/
theorem make_gather_indices_coprime (N : Nat) (s : Int) (hN : 1 ≤ N) (hs : 1 ≤ s)
    (hwrap : ((N : Int) - 1) * s < 2 ^ 64) (hg : Nat.gcd s.toNat N = 1) :
    (make_gather_indices N s).Nodup ∧ ∀ j, j ∈ make_gather_indices N s ↔ j < N := by
  have hcard : (make_gather_indices N s).toFinset.card = N := by
    rw [make_gather_indices_card N s hN hs hwrap, hg, Nat.div_one]
  have hsub : (make_gather_indices N s).toFinset ⊆ Finset.range N := by
    intro j hj
    rw [List.mem_toFinset, make_gather_indices] at hj
    obtain ⟨i, _, rfl⟩ := List.mem_map.mp hj
    exact Finset.mem_range.mpr (Nat.mod_lt _ (by omega))
  have heq : (make_gather_indices N s).toFinset = Finset.range N :=
    Finset.eq_of_subset_of_card_le hsub (by rw [hcard, Finset.card_range])
  refine ⟨?_, fun j => ?_⟩
  · apply Multiset.coe_nodup.mp
    apply (Multiset.toFinset_card_eq_card_iff_nodup
      (m := ((make_gather_indices N s : List Nat) : Multiset Nat))).mp
    rw [Multiset.coe_card, make_gather_indices_length]
    exact hcard
  · rw [← List.mem_toFinset, heq, Finset.mem_range]

/-- Without wrap and with `gcd(s, N) > 1` the table repeats an entry and never holds the
index 1, which lies below `N`. -/
theorem make_gather_indices_not_coprime (N : Nat) (s : Int) (hN : 1 ≤ N) (hs : 1 ≤ s)
    (hwrap : ((N : Int) - 1) * s < 2 ^ 64) (hg : 1 < Nat.gcd s.toNat N) :
    ¬ (make_gather_indices N s).Nodup ∧ 1 < N ∧ 1 ∉ make_gather_indices N s := by
  have hgN : Nat.gcd s.toNat N ∣ N := Nat.gcd_dvd_right _ _
  have hgs : Nat.gcd s.toNat N ∣ s.toNat := Nat.gcd_dvd_left _ _
  have h1N : 1 < N := lt_of_lt_of_le hg (Nat.le_of_dvd (by omega) hgN)
  refine ⟨fun hnd => ?_, h1N, fun hmem => ?_⟩
  · have hlen := List.toFinset_card_of_nodup hnd
    rw [make_gather_indices_card N s hN hs hwrap, make_gather_indices_length] at hlen
    have : N / Nat.gcd s.toNat N < N := Nat.div_lt_self (by omega) hg
    omega
  · rw [make_gather_indices_no_wrap N s (by omega) hwrap] at hmem
    obtain ⟨i, _, hi⟩ := List.mem_map.mp hmem
    have hdvd : Nat.gcd s.toNat N ∣ i * s.toNat % N :=
      (Nat.dvd_mod_iff hgN).mpr (Dvd.dvd.mul_left hgs i)
    rw [hi] at hdvd
    have := Nat.le_of_dvd (by omega) hdvd
    omega

/-- Two counters with the same entry make that entry occur at least twice in the gather
table. -/
theorem make_gather_indices_count_two (N : Nat) (s : Int) (i1 i0 w : Nat) (h1 : i1 < i0)
    (h0 : i0 < N) (e1 : (i1 * to_size_t s % SIZE_T_RANGE) % N = w)
    (e0 : (i0 * to_size_t s % SIZE_T_RANGE) % N = w) :
    2 ≤ (make_gather_indices N s).count w := by
  unfold make_gather_indices
  exact count_map_range_two (fun i => (i * to_size_t s % SIZE_T_RANGE) % N) w N i1 i0 h1 h0
    e1 e0

/-- The unit-stride branch of SAXPY: `y'[j] = a*x[j] + y[j]` below `N`, `y'[j] = y[j]`
from `N` on. -/
theorem saxpy_unit_values {α : Type} [Mul α] [Add α] (fuel : Nat) (y x : Nat → α) (a : α)
    (N : Nat) (s : Int) (gather_idx : Option (List Nat)) :
    ∃ r, saxpy_scalar fuel y x a N AccessPattern.UnitStride s gather_idx = Outcome.returned r ∧
      (∀ j, j < N → r.val j = a * x j + y j) ∧ ∀ j, N ≤ j → r.val j = y j := by
  refine ⟨_, saxpy_unit_eq fuel y x a N s gather_idx, fun j hj => ?_, fun j hj => ?_⟩
  · exact saxpy_foldl_nodup x a (List.range N) (List.nodup_range N) _ j (List.mem_range.mpr hj)
  · exact saxpy_foldl_untouched x a (List.range N) _ j (by rw [List.mem_range]; omega)

/-- The gather branch of SAXPY with the table built for the same `N`: an index outside the
table keeps its value, and when the table has no repeated entry an index of the table ends
with `a*x[j] + y[j]`. -/
theorem saxpy_gather_values {α : Type} [Mul α] [Add α] (fuel : Nat) (y x : Nat → α) (a : α)
    (N : Nat) (s s' : Int) :
    ∃ r, saxpy_scalar fuel y x a N AccessPattern.Gather s (some (make_gather_indices N s'))
        = Outcome.returned r ∧
      (∀ j, j ∉ make_gather_indices N s' → r.val j = y j) ∧
      ((make_gather_indices N s').Nodup →
        ∀ j, j ∈ make_gather_indices N s' → r.val j = a * x j + y j) := by
  refine ⟨_, saxpy_gather_eq fuel y x a N s s', fun j hj => ?_, fun hnd j hj => ?_⟩
  · exact saxpy_foldl_untouched x a _ _ j hj
  · exact saxpy_foldl_nodup x a _ hnd _ j hj

/-- The gather branch of SAXPY over the integers with `a = 1` and `x` constantly 1: `y[j]`
grows by the number of occurrences of `j` in the table. -/
theorem saxpy_gather_counts (fuel : Nat) (y : Nat → Int) (N : Nat) (s s' : Int) :
    ∃ r, saxpy_scalar fuel y (fun _ => (1 : Int)) 1 N AccessPattern.Gather s
        (some (make_gather_indices N s')) = Outcome.returned r ∧
      ∀ j, r.val j = y j + ((make_gather_indices N s').count j : Int) :=
  ⟨_, saxpy_gather_eq fuel y (fun _ => (1 : Int)) 1 N s s',
    fun j => saxpy_foldl_count _ _ j⟩

/-- C13 (as stated, refuted): with `N = 8589934598` and stride `2147483647`
(`gcd(s, N) = 1`), the counter `8589934597` gives a `size_t` product that wraps, and its
table entry `2147483643` equals the entry of the counter `6871947681`.  Over the integers
with `a = 1`, `x` constantly 1 and `y` constantly 0, the Gather result at that index is at
least 2, while UnitStride gives `a*x + y = 1`. -/
theorem saxpy_gather_wrap_counterexample :
    Nat.gcd (2147483647 : Int).toNat 8589934598 = 1 ∧
    ∃ rg ru : Traced (Nat → Int),
      saxpy_scalar 0 (fun _ => 0) (fun _ => 1) 1 8589934598 AccessPattern.Gather 2147483647
        (some (make_gather_indices 8589934598 2147483647)) = Outcome.returned rg ∧
      saxpy_scalar 0 (fun _ => 0) (fun _ => 1) 1 8589934598 AccessPattern.UnitStride
        2147483647 none = Outcome.returned ru ∧
      2147483643 < 8589934598 ∧
      ru.val 2147483643 = 1 ∧
      2 ≤ rg.val 2147483643 := by
  obtain ⟨rg, hrg, hcount⟩ := saxpy_gather_counts 0 (fun _ => 0) 8589934598 2147483647
    2147483647
  obtain ⟨ru, hru, hval, _⟩ := saxpy_unit_values 0 (fun _ => (0 : Int)) (fun _ => 1) 1
    8589934598 2147483647 none
  have hs : to_size_t 2147483647 = 2147483647 := by decide
  have htwo := make_gather_indices_count_two 8589934598 2147483647 6871947681 8589934597
    2147483643 (by omega) (by omega)
    (by rw [hs]; norm_num [SIZE_T_RANGE]) (by rw [hs]; norm_num [SIZE_T_RANGE])
  refine ⟨by decide, rg, ru, hrg, hru, by omega, ?_, ?_⟩
  · rw [hval 2147483643 (by omega)]
    norm_num
  · rw [hcount 2147483643]
    have h2 : (2 : Int) ≤ ((make_gather_indices 8589934598 2147483647).count 2147483643 : Int) := by
      exact_mod_cast htwo
    simpa using h2

/-- C13 (amended): for every `N ≥ 1`, scalar `a`, arrays `x`, `y` and stride `s ≥ 1` with
`(N - 1) * s < 2^64` (no `size_t` wrap in the table): when `gcd(s, N) = 1`, `saxpy_scalar`
under the Gather pattern with the table `make_gather_indices(N, s)` returns the same final
`y` as under UnitStride, namely `y'[i] = a*x[i] + y[i]` for every `i` in `[0, N)`; when
`gcd(s, N) > 1` the table repeats an entry and never holds index 1, which Gather leaves at
`y[1]`, so the two results differ for the integer input `a = 1`, `x = 1`, `y = 0`. -/
theorem saxpy_gather_vs_unit {α : Type} [Mul α] [Add α] (N : Nat) (s : Int) (hN : 1 ≤ N)
    (hs : 1 ≤ s) (hwrap : ((N : Int) - 1) * s < 2 ^ 64) (fuel : Nat) (a : α)
    (x y : Nat → α) :
    (Nat.gcd s.toNat N = 1 →
      ∃ rg ru,
        saxpy_scalar fuel y x a N AccessPattern.Gather s (some (make_gather_indices N s))
          = Outcome.returned rg ∧
        saxpy_scalar fuel y x a N AccessPattern.UnitStride s none = Outcome.returned ru ∧
        rg.val = ru.val ∧ ∀ i, i < N → rg.val i = a * x i + y i) ∧
    (1 < Nat.gcd s.toNat N →
      ¬ (make_gather_indices N s).Nodup ∧ 1 < N ∧ 1 ∉ make_gather_indices N s ∧
      (∃ rg, saxpy_scalar fuel y x a N AccessPattern.Gather s
          (some (make_gather_indices N s)) = Outcome.returned rg ∧ rg.val 1 = y 1) ∧
      ∃ rg ru : Traced (Nat → Int),
        saxpy_scalar fuel (fun _ => 0) (fun _ => 1) 1 N AccessPattern.Gather s
          (some (make_gather_indices N s)) = Outcome.returned rg ∧
        saxpy_scalar fuel (fun _ => 0) (fun _ => 1) 1 N AccessPattern.UnitStride s none
          = Outcome.returned ru ∧
        rg.val 1 ≠ ru.val 1) := by
  obtain ⟨rg, hrg, hout, hin⟩ := saxpy_gather_values fuel y x a N s s
  obtain ⟨ru, hru, hlt, hge⟩ := saxpy_unit_values fuel y x a N s none
  constructor
  · intro hg
    obtain ⟨hnd, hmem⟩ := make_gather_indices_coprime N s hN hs hwrap hg
    refine ⟨rg, ru, hrg, hru, ?_, fun i hi => hin hnd i ((hmem i).mpr hi)⟩
    funext j
    rcases Nat.lt_or_ge j N with hj | hj
    · rw [hin hnd j ((hmem j).mpr hj), hlt j hj]
    · rw [hout j (fun h => by have := (hmem j).mp h; omega), hge j hj]
  · intro hg
    obtain ⟨hnd, h1N, h1⟩ := make_gather_indices_not_coprime N s hN hs hwrap hg
    refine ⟨hnd, h1N, h1, ⟨rg, hrg, hout 1 h1⟩, ?_⟩
    obtain ⟨rg', hrg', hout', _⟩ := saxpy_gather_values fuel (fun _ => (0 : Int))
      (fun _ => 1) 1 N s s
    obtain ⟨ru', hru', hlt', _⟩ := saxpy_unit_values fuel (fun _ => (0 : Int))
      (fun _ => 1) 1 N s none
    refine ⟨rg', ru', hrg', hru', ?_⟩
    rw [hout' 1 h1, hlt' 1 h1N]
    norm_num

/-- C13 witness: `N = 10`, `s = 3` (`gcd = 1`) on integer arrays. -/
theorem saxpy_gather_vs_unit_witness :
    (1 ≤ 10 ∧ (1 : Int) ≤ 3 ∧ (((10 : Nat) : Int) - 1) * 3 < 2 ^ 64) ∧
    ((Nat.gcd (3 : Int).toNat 10 = 1 →
      ∃ rg ru,
        saxpy_scalar 0 (fun _ => (5 : Int)) (fun i => (i : Int)) 2 10 AccessPattern.Gather 3
          (some (make_gather_indices 10 3)) = Outcome.returned rg ∧
        saxpy_scalar 0 (fun _ => (5 : Int)) (fun i => (i : Int)) 2 10
          AccessPattern.UnitStride 3 none = Outcome.returned ru ∧
        rg.val = ru.val ∧ ∀ i, i < 10 → rg.val i = 2 * ((i : Nat) : Int) + 5) ∧
    (1 < Nat.gcd (3 : Int).toNat 10 →
      ¬ (make_gather_indices 10 3).Nodup ∧ 1 < 10 ∧ 1 ∉ make_gather_indices 10 3 ∧
      (∃ rg, saxpy_scalar 0 (fun _ => (5 : Int)) (fun i => (i : Int)) 2 10
          AccessPattern.Gather 3 (some (make_gather_indices 10 3)) = Outcome.returned rg ∧
        rg.val 1 = 5) ∧
      ∃ rg ru : Traced (Nat → Int),
        saxpy_scalar 0 (fun _ => 0) (fun _ => 1) 1 10 AccessPattern.Gather 3
          (some (make_gather_indices 10 3)) = Outcome.returned rg ∧
        saxpy_scalar 0 (fun _ => 0) (fun _ => 1) 1 10 AccessPattern.UnitStride 3 none
          = Outcome.returned ru ∧
        rg.val 1 ≠ ru.val 1)) :=
  ⟨by decide, saxpy_gather_vs_unit 10 3 (by decide) (by decide) (by decide) 0 2
    (fun i => (i : Int)) (fun _ => (5 : Int))⟩


/-! ## Alignment -/

/-- With `g_aligned` set, every element the fill loop writes lies inside its vector. -/
theorem aligned_fill_in_bounds (g : Globals) (N : Nat) (h : g.aligned = true) :
    ∀ p ∈ fill_positions g N, p < vector_length N := by
  intro p hp
  unfold fill_positions at hp
  obtain ⟨i, hi, rfl⟩ := List.mem_map.mp hp
  simp only [vector_position, maybe_misalign, h, if_true, vector_length]
  have := List.mem_range.mp hi
  omega

/-- With `g_aligned` cleared and `N ≥ 1`, the view access `xp[N-1]` denotes element `N` of a
vector of `N` elements, and the fill loop writes it. -/
theorem misaligned_last_access (g : Globals) (N : Nat) (h : g.aligned = false) (hN : 1 ≤ N) :
    vector_position g (N - 1) = vector_length N ∧ vector_length N ∈ fill_positions g N := by
  have hpos : vector_position g (N - 1) = vector_length N := by
    simp only [vector_position, maybe_misalign, h, vector_length]
    simp
    omega
  refine ⟨hpos, ?_⟩
  rw [← hpos]
  exact List.mem_map.mpr ⟨N - 1, List.mem_range.mpr (by omega), rfl⟩

/-- C12 (code defect): for the command line `pro1 f32 --misaligned` the globals have
`g_aligned` cleared and the working-set size is `N = 8`; each vector holds 8 elements, the
fill loop writes the elements `1 .. 8` of each vector, and the unit-stride SAXPY kernel
touches the view indices `0 .. 7`: the access `xp[7]` is element 8, one past the end of the
vector, so the buffer does not hold `N + 1` elements as the claim requires. -/
theorem misaligned_view_overruns :
    parse_args Globals.initial ["f32", "--misaligned"]
      = Outcome.returned (some ⟨false, false, AccessPattern.UnitStride, 1, "f32", ""⟩) ∧
    N_sweep 4 "" = Outcome.returned [8] ∧
    vector_length 8 = 8 ∧
    fill_positions ⟨false, false, AccessPattern.UnitStride, 1, "f32", ""⟩ 8
      = [1, 2, 3, 4, 5, 6, 7, 8] ∧
    (saxpy_scalar 0 (fun _ => (0 : Int)) (fun _ => 0) 3 8 AccessPattern.UnitStride 1 none).bind
        (fun r => Outcome.returned (touched r.trace))
      = Outcome.returned {0, 1, 2, 3, 4, 5, 6, 7} ∧
    vector_position ⟨false, false, AccessPattern.UnitStride, 1, "f32", ""⟩ 7 = 8 ∧
    ¬ (vector_position ⟨false, false, AccessPattern.UnitStride, 1, "f32", ""⟩ 7
        < vector_length 8) := by
  refine ⟨by decide, by decide, by decide, by decide, by decide, by decide, by decide⟩

end Pro1
